import Mathlib

/-!
Verification of the multichat repository against its specification.

The development shallowly embeds the parts of the code the claims are
about:

* `multichat-proto/src/wire.rs` — the chunked wire frame codec
  (`Config::read` / `Config::write`).
* `multichat-proto/src/access_token.rs` — `AccessToken::from_str`.
* `multichat-server/src/server.rs` — the per-connection command handlers
  (`JoinGroup`, `LeaveGroup`, `DestroyUser`, `SendMessage`,
  `DownloadAttachment`, `IgnoreAttachment`, and the group-update
  `Message` arm) together with a model of the `slab` allocator they use.

Bytes are modelled as natural numbers, byte streams as `List Nat`.
Machine integers are naturals with explicit bounds where overflow
matters.
-/

namespace Multichat

deriving instance DecidableEq for Except

/-- Error kinds surfaced by the wire codec, following `std::io::Error`
uses in `wire.rs`: `sizeLimit` is the "Data size exceeded limit" error,
`io` an underlying read failure, `decode` a malformed payload. -/
inductive WireErr where
  | sizeLimit
  | io
  | decode
  deriving DecidableEq, Repr

/-- Wire codec configuration, from `wire.rs` `struct Config`. -/
structure Config where
  maxSize : Nat
  deriving DecidableEq, Repr

/-- The `Config::default()`: max frame size 65535 bytes. -/
def Config.default : Config := ⟨65535⟩

/-- The chunk bodies written by `Config::write`'s
`for chunk in data.chunks(0xFF)` loop: each chunk is a 1-byte length
followed by that many payload bytes. -/
def chunkBody (p : List Nat) : List Nat :=
  if p = [] then []
  else if p.length ≤ 255 then p.length :: p
  else (255 :: p.take 255) ++ chunkBody (p.drop 255)
termination_by p.length
decreasing_by
  simp_all [List.length_drop]
  omega

/-- The byte stream `Config::write` produces for a payload that passed
the size check: the chunks, plus a trailing zero-length chunk when the
payload length is a multiple of 255 (`data.len() % 0xFF == 0`). -/
def writeChunks (p : List Nat) : List Nat :=
  chunkBody p ++ (if p.length % 255 = 0 then [0] else [])

/-- The reading loop of `Config::read`: reads a `u8` chunk length,
checks `buffer.len() + chunk_length > max_size`, reads the chunk into a
255-byte zeroed array and extends the buffer with the whole array
(`buffer.extend_from_slice(&chunk_buffer)` appends the padding zeros as
in the source), stopping at the first chunk shorter than 255 bytes.
Returns the accumulated buffer and the unconsumed remainder of the
stream. -/
def readLoop (maxSize : Nat) :
    List Nat → List Nat → Except WireErr (List Nat × List Nat)
  | [], _ => .error .io
  | c :: rest, buffer =>
    if buffer.length + c > maxSize then .error .sizeLimit
    else if rest.length < c then .error .io
    else
      let buffer' := buffer ++ rest.take c ++ List.replicate (255 - c) 0
      if c < 255 then .ok (buffer', rest.drop c)
      else readLoop maxSize (rest.drop c) buffer'
termination_by s b => s.length
decreasing_by
  simp_all [List.length_drop]
  omega

/-- The `writeChunks` unfolding for payloads of at least 255 bytes: one full
chunk followed by the frame of the rest. -/
theorem writeChunks_ge (p : List Nat) (h : 255 ≤ p.length) :
    writeChunks p = 255 :: (p.take 255 ++ writeChunks (p.drop 255)) := by
  rcases Nat.lt_or_ge 255 p.length with hlt | hle
  · have hne : p ≠ [] := by intro he; simp [he] at h
    have hnle : ¬ p.length ≤ 255 := by omega
    rw [writeChunks, chunkBody]
    simp only [hne, if_false, hnle, if_false]
    rw [writeChunks]
    have hmod : p.length % 255 = (p.drop 255).length % 255 := by
      simp [List.length_drop]
      omega
    simp [hmod, List.append_assoc]
  · have hlen : p.length = 255 := by omega
    have hne : p ≠ [] := by intro he; simp [he] at hlen
    rw [writeChunks, chunkBody]
    simp only [hne, if_false, hlen]
    simp only [le_refl, if_true]
    rw [show p.drop 255 = [] from by
      apply List.eq_nil_of_length_eq_zero; simp [List.length_drop, hlen]]
    rw [show p.take 255 = p from by
      apply List.take_of_length_le; omega]
    simp [writeChunks, chunkBody, hlen]

/-- The `writeChunks` on a short nonempty payload: a single chunk. -/
theorem writeChunks_lt (p : List Nat) (h0 : p ≠ []) (h : p.length < 255) :
    writeChunks p = p.length :: p := by
  have hmod : p.length % 255 = p.length := Nat.mod_eq_of_lt h
  have hne : p.length ≠ 0 := by
    intro he; exact h0 (List.eq_nil_of_length_eq_zero he)
  rw [writeChunks, chunkBody]
  simp [h0, Nat.le_of_lt h, hmod, hne]

/-- The `writeChunks` on the empty payload: just the zero-length chunk. -/
theorem writeChunks_nil : writeChunks [] = [0] := by
  simp [writeChunks, chunkBody]

/-- Auxiliary strong induction for `readLoop_writeChunks`. -/
theorem readLoop_writeChunks_aux : ∀ n : Nat, ∀ p : List Nat,
    p.length = n → ∀ acc r : List Nat, ∀ maxSize : Nat,
    acc.length + p.length ≤ maxSize →
    readLoop maxSize (writeChunks p ++ r) acc =
      .ok (acc ++ p ++ List.replicate (255 - p.length % 255) 0, r) := by
  intro n
  induction n using Nat.strong_induction_on with
  | _ n ih =>
    intro p hn acc r maxSize hsz
    rcases Nat.lt_or_ge p.length 255 with hlt | hge
    · rcases eq_or_ne p [] with he | hne
      · subst he
        rw [writeChunks_nil]
        simp only [List.cons_append, List.nil_append]
        rw [readLoop]
        simp only [List.length_nil] at hsz
        have h1 : ¬ acc.length + 0 > maxSize := by omega
        have h2 : ¬ r.length < 0 := by omega
        have h3 : (0 : Nat) < 255 := by omega
        simp only [h1, if_false, h2, if_false, h3, if_true, List.take_zero,
          List.drop_zero, List.append_nil, List.length_nil, Nat.sub_zero,
          Nat.zero_mod]
      · rw [writeChunks_lt p hne hlt]
        simp only [List.cons_append]
        rw [readLoop]
        have h1 : ¬ acc.length + p.length > maxSize := by omega
        have h2 : ¬ (p ++ r).length < p.length := by
          simp only [List.length_append]
          omega
        simp only [h1, if_false, h2, if_false, hlt, if_true]
        rw [List.take_left, List.drop_left, Nat.mod_eq_of_lt hlt,
          List.append_assoc]
    · rw [writeChunks_ge p hge]
      simp only [List.cons_append]
      rw [readLoop]
      have h1 : ¬ acc.length + 255 > maxSize := by omega
      have h2 : ¬ (p.take 255 ++ (writeChunks (p.drop 255) ++ r)).length
          < 255 := by
        simp only [List.length_append, List.length_take]
        omega
      simp only [List.append_assoc, h1, if_false, h2, if_false]
      have hl255 : (p.take 255).length = 255 := by
        simp only [List.length_take]
        omega
      have htk : (p.take 255 ++ (writeChunks (p.drop 255) ++ r)).take 255
          = p.take 255 := List.take_left' hl255
      have hdp : (p.take 255 ++ (writeChunks (p.drop 255) ++ r)).drop 255
          = writeChunks (p.drop 255) ++ r := List.drop_left' hl255
      simp only [htk, hdp]
      have hnot : ¬ (255 : Nat) < 255 := by omega
      simp only [hnot, if_false]
      have hdl : (p.drop 255).length = p.length - 255 := by
        simp only [List.length_drop]
      have hmod : (p.drop 255).length % 255 = p.length % 255 := by
        rw [hdl]
        omega
      have hrec := ih (p.length - 255) (by omega) (p.drop 255) hdl
        (acc ++ p.take 255 ++ List.replicate (255 - 255) 0) r maxSize
        (by
          simp only [List.length_append, List.length_take,
            List.length_replicate, List.length_drop]
          omega)
      rw [hmod] at hrec
      simp only [Nat.sub_self, List.replicate_zero, List.append_nil]
        at hrec ⊢
      rw [hrec]
      have hlist : acc ++ p.take 255 ++ p.drop 255 ++
          List.replicate (255 - p.length % 255) 0 =
          acc ++ p ++ List.replicate (255 - p.length % 255) 0 := by
        rw [List.append_assoc acc, List.take_append_drop]
      rw [hlist]
      simp only [List.append_assoc]

/-- The read loop consumes exactly the frame written by the write loop
and recovers the payload, followed by the zero padding the source's
`extend_from_slice(&chunk_buffer)` leaves behind the last chunk. -/
theorem readLoop_writeChunks (p acc r : List Nat) (maxSize : Nat)
    (h : acc.length + p.length ≤ maxSize) :
    readLoop maxSize (writeChunks p ++ r) acc =
      .ok (acc ++ p ++ List.replicate (255 - p.length % 255) 0, r) :=
  readLoop_writeChunks_aux p.length p rfl acc r maxSize h

/-- Auxiliary strong induction for `readLoop_writeChunks_over`. -/
theorem readLoop_writeChunks_over_aux : ∀ n : Nat, ∀ p : List Nat,
    p.length = n → ∀ acc r : List Nat, ∀ maxSize : Nat,
    acc.length + p.length > maxSize →
    readLoop maxSize (writeChunks p ++ r) acc = .error .sizeLimit := by
  intro n
  induction n using Nat.strong_induction_on with
  | _ n ih =>
    intro p hn acc r maxSize hsz
    rcases Nat.lt_or_ge p.length 255 with hlt | hge
    · rcases eq_or_ne p [] with he | hne
      · subst he
        rw [writeChunks_nil]
        simp only [List.cons_append, List.nil_append]
        rw [readLoop]
        simp only [List.length_nil] at hsz
        have h1 : acc.length + 0 > maxSize := by omega
        simp only [h1, if_true]
      · rw [writeChunks_lt p hne hlt]
        simp only [List.cons_append]
        rw [readLoop]
        have h1 : acc.length + p.length > maxSize := hsz
        simp only [h1, if_true]
    · rw [writeChunks_ge p hge]
      simp only [List.cons_append]
      rw [readLoop]
      by_cases h1 : acc.length + 255 > maxSize
      · simp only [h1, if_true]
      · simp only [h1, if_false]
        have h2 : ¬ (p.take 255 ++ (writeChunks (p.drop 255) ++ r)).length
            < 255 := by
          simp only [List.length_append, List.length_take]
          omega
        simp only [List.append_assoc, h2, if_false]
        have hl255 : (p.take 255).length = 255 := by
          simp only [List.length_take]
          omega
        have htk : (p.take 255 ++ (writeChunks (p.drop 255) ++ r)).take 255
            = p.take 255 := List.take_left' hl255
        have hdp : (p.take 255 ++ (writeChunks (p.drop 255) ++ r)).drop 255
            = writeChunks (p.drop 255) ++ r := List.drop_left' hl255
        simp only [htk, hdp]
        have hnot : ¬ (255 : Nat) < 255 := by omega
        simp only [hnot, if_false]
        have hdl : (p.drop 255).length = p.length - 255 := by
          simp only [List.length_drop]
        simp only [Nat.sub_self, List.replicate_zero, List.append_nil]
        exact ih (p.length - 255) (by omega) (p.drop 255) hdl
          (acc ++ p.take 255) r maxSize
          (by
            simp only [List.length_append, List.length_take,
              List.length_drop]
            omega)

/-- When the payload exceeds the limit, the read loop rejects the frame
with the size-limit error. -/
theorem readLoop_writeChunks_over (p acc r : List Nat) (maxSize : Nat)
    (h : acc.length + p.length > maxSize) :
    readLoop maxSize (writeChunks p ++ r) acc = .error .sizeLimit :=
  readLoop_writeChunks_over_aux p.length p rfl acc r maxSize h

/-! ### Payload codec

Modelled from the spec: the payload serialization of protocol messages
is performed by the external `rmp_serde` dependency, not by code of this
repository.  The spec describes it as "a self-describing encoding of a
typed value (tagged unions as integer discriminant + fields; strings as
length-prefixed UTF-8; byte arrays similarly; sequences as count +
elements)".  The model below follows those words: fixed-width big-endian
integers, length-prefixed byte strings, count-prefixed sequences and a
one-byte variant discriminant. -/

/-- Big-endian encoding of a `u32` field. -/
def encU32 (n : Nat) : List Nat :=
  [n / 16777216 % 256, n / 65536 % 256, n / 256 % 256, n % 256]

/-- Decode a big-endian `u32`, returning the remainder of the input. -/
def decU32 : List Nat → Option (Nat × List Nat)
  | a :: b :: c :: d :: r => some (((a * 256 + b) * 256 + c) * 256 + d, r)
  | _ => none

/-- Big-endian encoding of a `u64` field. -/
def encU64 (n : Nat) : List Nat :=
  encU32 (n / 4294967296) ++ encU32 (n % 4294967296)

/-- Decode a big-endian `u64`. -/
def decU64 (s : List Nat) : Option (Nat × List Nat) :=
  match decU32 s with
  | none => none
  | some (hi, r) =>
    match decU32 r with
    | none => none
    | some (lo, r') => some (hi * 4294967296 + lo, r')

/-- Length-prefixed byte string (also used for UTF-8 string fields). -/
def encBytes (b : List Nat) : List Nat :=
  encU32 b.length ++ b

/-- Decode a length-prefixed byte string. -/
def decBytes (s : List Nat) : Option (List Nat × List Nat) :=
  match decU32 s with
  | none => none
  | some (n, r) =>
    if n ≤ r.length then some (r.take n, r.drop n) else none

/-- Count-prefixed sequence of elements. -/
def encSeq (enc : α → List Nat) (xs : List α) : List Nat :=
  encU32 xs.length ++ (xs.map enc).flatten

/-- Decode exactly `n` elements with the given element decoder. -/
def decSeqN (dec : List Nat → Option (α × List Nat)) :
    Nat → List Nat → Option (List α × List Nat)
  | 0, s => some ([], s)
  | n + 1, s =>
    match dec s with
    | none => none
    | some (a, r) =>
      match decSeqN dec n r with
      | none => none
      | some (as, r') => some (a :: as, r')

/-- Decode a count-prefixed sequence. -/
def decSeq (dec : List Nat → Option (α × List Nat)) (s : List Nat) :
    Option (List α × List Nat) :=
  match decU32 s with
  | none => none
  | some (n, r) => decSeqN dec n r

theorem decU32_encU32 (n : Nat) (r : List Nat) (h : n < 4294967296) :
    decU32 (encU32 n ++ r) = some (n, r) := by
  simp only [encU32, decU32, List.cons_append, List.nil_append]
  congr 1
  congr 1
  omega

theorem decU64_encU64 (n : Nat) (r : List Nat)
    (h : n < 18446744073709551616) :
    decU64 (encU64 n ++ r) = some (n, r) := by
  have hhi : n / 4294967296 < 4294967296 := by omega
  have hlo : n % 4294967296 < 4294967296 := by omega
  simp only [encU64, decU64, List.append_assoc,
    decU32_encU32 _ _ hhi, decU32_encU32 _ _ hlo]
  congr 1
  congr 1
  omega

theorem decBytes_encBytes (b : List Nat) (r : List Nat)
    (h : b.length < 4294967296) :
    decBytes (encBytes b ++ r) = some (b, r) := by
  simp only [encBytes, decBytes, List.append_assoc, decU32_encU32 _ _ h]
  have hle : b.length ≤ (b ++ r).length := by
    simp only [List.length_append]
    omega
  simp only [hle, if_true, List.take_left, List.drop_left]

theorem decSeqN_encSeq (dec : List Nat → Option (α × List Nat))
    (enc : α → List Nat) (xs : List α)
    (hdec : ∀ x ∈ xs, ∀ r : List Nat, dec (enc x ++ r) = some (x, r)) :
    ∀ r : List Nat, decSeqN dec xs.length ((xs.map enc).flatten ++ r) =
      some (xs, r) := by
  induction xs with
  | nil => intro r; simp [decSeqN]
  | cons x xs ihx =>
    intro r
    simp only [List.map_cons, List.flatten_cons, List.length_cons, decSeqN,
      List.append_assoc]
    rw [hdec x (by simp) ((xs.map enc).flatten ++ r)]
    simp only [ihx (fun y hy r' => hdec y (by simp [hy]) r')]

theorem decSeq_encSeq (dec : List Nat → Option (α × List Nat))
    (enc : α → List Nat) (xs : List α) (r : List Nat)
    (hlen : xs.length < 4294967296)
    (hdec : ∀ x ∈ xs, ∀ r' : List Nat, dec (enc x ++ r') = some (x, r')) :
    decSeq dec (encSeq enc xs ++ r) = some (xs, r) := by
  simp only [encSeq, decSeq, List.append_assoc, decU32_encU32 _ _ hlen]
  exact decSeqN_encSeq dec enc xs hdec r


/-! ### Protocol messages

Mirrors of the message enums in `multichat-proto/src/client.rs` and
`multichat-proto/src/server.rs`.  String fields (`Cow<str>`) and byte
blobs (`Cow<[u8]>`) are modelled as byte lists. -/

/-- The `Attachment` metadata from `server.rs`: per-connection id and size. -/
structure Attachment where
  id : Nat
  size : Nat
  deriving DecidableEq, Repr

/-- The `ClientMessage` from `client.rs`, one constructor per variant in
declaration order. -/
inductive ClientMessage where
  | joinGroup (name : List Nat)
  | leaveGroup (gid : Nat)
  | initUser (gid : Nat) (name : List Nat)
  | destroyUser (gid uid : Nat)
  | rename (gid uid : Nat) (name : List Nat)
  | sendMessage (gid uid : Nat) (message : List Nat)
      (attachments : List (List Nat))
  | downloadAttachment (id : Nat)
  | ignoreAttachment (id : Nat)
  | pong
  deriving DecidableEq, Repr

/-- The `ServerMessage` from `server.rs`, one constructor per variant in
declaration order. -/
inductive ServerMessage where
  | initGroup (name : List Nat) (gid : Nat)
  | destroyGroup (gid : Nat)
  | initUser (gid uid : Nat) (name : List Nat)
  | destroyUser (gid uid : Nat)
  | message (gid uid : Nat) (message : List Nat)
      (attachments : List Attachment)
  | rename (gid uid : Nat) (name : List Nat)
  | confirmUser (uid : Nat)
  | confirmGroup (gid : Nat)
  | attachment (data : List Nat)
  | ping
  deriving DecidableEq, Repr

/-- Well-formedness of a `ClientMessage` value: every field fits its
Rust machine type (`u32` ids, `u32`-bounded lengths). -/
def ClientMessage.wf : ClientMessage → Bool
  | .joinGroup name => decide (name.length < 4294967296)
  | .leaveGroup gid => decide (gid < 4294967296)
  | .initUser gid name =>
      decide (gid < 4294967296) && decide (name.length < 4294967296)
  | .destroyUser gid uid =>
      decide (gid < 4294967296) && decide (uid < 4294967296)
  | .rename gid uid name =>
      decide (gid < 4294967296) && decide (uid < 4294967296) &&
      decide (name.length < 4294967296)
  | .sendMessage gid uid message attachments =>
      decide (gid < 4294967296) && decide (uid < 4294967296) &&
      decide (message.length < 4294967296) &&
      decide (attachments.length < 4294967296) &&
      attachments.all (fun b => decide (b.length < 4294967296))
  | .downloadAttachment id => decide (id < 4294967296)
  | .ignoreAttachment id => decide (id < 4294967296)
  | .pong => true

/-- Well-formedness of a `ServerMessage` value. -/
def ServerMessage.wf : ServerMessage → Bool
  | .initGroup name gid =>
      decide (name.length < 4294967296) && decide (gid < 4294967296)
  | .destroyGroup gid => decide (gid < 4294967296)
  | .initUser gid uid name =>
      decide (gid < 4294967296) && decide (uid < 4294967296) &&
      decide (name.length < 4294967296)
  | .destroyUser gid uid =>
      decide (gid < 4294967296) && decide (uid < 4294967296)
  | .message gid uid text attachments =>
      decide (gid < 4294967296) && decide (uid < 4294967296) &&
      decide (text.length < 4294967296) &&
      decide (attachments.length < 4294967296) &&
      attachments.all (fun a => decide (a.id < 4294967296) &&
        decide (a.size < 18446744073709551616))
  | .rename gid uid name =>
      decide (gid < 4294967296) && decide (uid < 4294967296) &&
      decide (name.length < 4294967296)
  | .confirmUser uid => decide (uid < 4294967296)
  | .confirmGroup gid => decide (gid < 4294967296)
  | .attachment data => decide (data.length < 4294967296)
  | .ping => true

/-- Payload encoding of a `ClientMessage`: one discriminant byte in
variant order, then the fields. -/
def encodeClient : ClientMessage → List Nat
  | .joinGroup name => 0 :: encBytes name
  | .leaveGroup gid => 1 :: encU32 gid
  | .initUser gid name => 2 :: (encU32 gid ++ encBytes name)
  | .destroyUser gid uid => 3 :: (encU32 gid ++ encU32 uid)
  | .rename gid uid name =>
      4 :: (encU32 gid ++ encU32 uid ++ encBytes name)
  | .sendMessage gid uid message attachments =>
      5 :: (encU32 gid ++ encU32 uid ++ encBytes message ++
        encSeq encBytes attachments)
  | .downloadAttachment id => 6 :: encU32 id
  | .ignoreAttachment id => 7 :: encU32 id
  | .pong => [8]

/-- Payload decoding of a `ClientMessage`: reads the discriminant byte
and then the fields, returning unread input. -/
def decodeClient (s : List Nat) : Option (ClientMessage × List Nat) :=
  match s with
  | [] => none
  | t :: s =>
    if t = 0 then
      match decBytes s with
      | some (name, r) => some (.joinGroup name, r)
      | none => none
    else if t = 1 then
      match decU32 s with
      | some (gid, r) => some (.leaveGroup gid, r)
      | none => none
    else if t = 2 then
      match decU32 s with
      | some (gid, r) =>
        match decBytes r with
        | some (name, r2) => some (.initUser gid name, r2)
        | none => none
      | none => none
    else if t = 3 then
      match decU32 s with
      | some (gid, r) =>
        match decU32 r with
        | some (uid, r2) => some (.destroyUser gid uid, r2)
        | none => none
      | none => none
    else if t = 4 then
      match decU32 s with
      | some (gid, r) =>
        match decU32 r with
        | some (uid, r2) =>
          match decBytes r2 with
          | some (name, r3) => some (.rename gid uid name, r3)
          | none => none
        | none => none
      | none => none
    else if t = 5 then
      match decU32 s with
      | some (gid, r) =>
        match decU32 r with
        | some (uid, r2) =>
          match decBytes r2 with
          | some (message, r3) =>
            match decSeq decBytes r3 with
            | some (attachments, r4) =>
              some (.sendMessage gid uid message attachments, r4)
            | none => none
          | none => none
        | none => none
      | none => none
    else if t = 6 then
      match decU32 s with
      | some (id, r) => some (.downloadAttachment id, r)
      | none => none
    else if t = 7 then
      match decU32 s with
      | some (id, r) => some (.ignoreAttachment id, r)
      | none => none
    else if t = 8 then
      some (.pong, s)
    else none

/-- Encoding of one `Attachment` record: id then size. -/
def encAttachment (a : Attachment) : List Nat :=
  encU32 a.id ++ encU64 a.size

/-- Decoding of one `Attachment` record. -/
def decAttachment (s : List Nat) : Option (Attachment × List Nat) :=
  match decU32 s with
  | some (id, r) =>
    match decU64 r with
    | some (size, r2) => some (⟨id, size⟩, r2)
    | none => none
  | none => none

/-- Payload encoding of a `ServerMessage`. -/
def encodeServer : ServerMessage → List Nat
  | .initGroup name gid => 0 :: (encBytes name ++ encU32 gid)
  | .destroyGroup gid => 1 :: encU32 gid
  | .initUser gid uid name =>
      2 :: (encU32 gid ++ encU32 uid ++ encBytes name)
  | .destroyUser gid uid => 3 :: (encU32 gid ++ encU32 uid)
  | .message gid uid text attachments =>
      4 :: (encU32 gid ++ encU32 uid ++ encBytes text ++
        encSeq encAttachment attachments)
  | .rename gid uid name =>
      5 :: (encU32 gid ++ encU32 uid ++ encBytes name)
  | .confirmUser uid => 6 :: encU32 uid
  | .confirmGroup gid => 7 :: encU32 gid
  | .attachment data => 8 :: encBytes data
  | .ping => [9]

/-- Payload decoding of a `ServerMessage`. -/
def decodeServer (s : List Nat) : Option (ServerMessage × List Nat) :=
  match s with
  | [] => none
  | t :: s =>
    if t = 0 then
      match decBytes s with
      | some (name, r) =>
        match decU32 r with
        | some (gid, r2) => some (.initGroup name gid, r2)
        | none => none
      | none => none
    else if t = 1 then
      match decU32 s with
      | some (gid, r) => some (.destroyGroup gid, r)
      | none => none
    else if t = 2 then
      match decU32 s with
      | some (gid, r) =>
        match decU32 r with
        | some (uid, r2) =>
          match decBytes r2 with
          | some (name, r3) => some (.initUser gid uid name, r3)
          | none => none
        | none => none
      | none => none
    else if t = 3 then
      match decU32 s with
      | some (gid, r) =>
        match decU32 r with
        | some (uid, r2) => some (.destroyUser gid uid, r2)
        | none => none
      | none => none
    else if t = 4 then
      match decU32 s with
      | some (gid, r) =>
        match decU32 r with
        | some (uid, r2) =>
          match decBytes r2 with
          | some (message, r3) =>
            match decSeq decAttachment r3 with
            | some (attachments, r4) =>
              some (.message gid uid message attachments, r4)
            | none => none
          | none => none
        | none => none
      | none => none
    else if t = 5 then
      match decU32 s with
      | some (gid, r) =>
        match decU32 r with
        | some (uid, r2) =>
          match decBytes r2 with
          | some (name, r3) => some (.rename gid uid name, r3)
          | none => none
        | none => none
      | none => none
    else if t = 6 then
      match decU32 s with
      | some (uid, r) => some (.confirmUser uid, r)
      | none => none
    else if t = 7 then
      match decU32 s with
      | some (gid, r) => some (.confirmGroup gid, r)
      | none => none
    else if t = 8 then
      match decBytes s with
      | some (data, r) => some (.attachment data, r)
      | none => none
    else if t = 9 then
      some (.ping, s)
    else none

theorem decAttachment_encAttachment (a : Attachment) (r : List Nat)
    (hid : a.id < 4294967296) (hsz : a.size < 18446744073709551616) :
    decAttachment (encAttachment a ++ r) = some (a, r) := by
  simp only [encAttachment, decAttachment, List.append_assoc,
    decU32_encU32 _ _ hid, decU64_encU64 _ _ hsz]

/-- The payload codec is a round trip on well-formed client messages;
the decoder consumes exactly the encoding and ignores trailing data. -/
theorem decodeClient_encodeClient (m : ClientMessage) (r : List Nat)
    (h : m.wf = true) : decodeClient (encodeClient m ++ r) = some (m, r) := by
  cases m with
  | joinGroup name =>
    simp only [ClientMessage.wf, decide_eq_true_eq] at h
    simp [encodeClient, decodeClient, decBytes_encBytes _ _ h]
  | leaveGroup gid =>
    simp only [ClientMessage.wf, decide_eq_true_eq] at h
    simp [encodeClient, decodeClient, decU32_encU32 _ _ h]
  | initUser gid name =>
    simp only [ClientMessage.wf, Bool.and_eq_true, decide_eq_true_eq] at h
    simp [encodeClient, decodeClient, List.append_assoc,
      decU32_encU32 _ _ h.1, decBytes_encBytes _ _ h.2]
  | destroyUser gid uid =>
    simp only [ClientMessage.wf, Bool.and_eq_true, decide_eq_true_eq] at h
    simp [encodeClient, decodeClient, List.append_assoc,
      decU32_encU32 _ _ h.1, decU32_encU32 _ _ h.2]
  | rename gid uid name =>
    simp only [ClientMessage.wf, Bool.and_eq_true, decide_eq_true_eq] at h
    simp [encodeClient, decodeClient, List.append_assoc,
      decU32_encU32 _ _ h.1.1, decU32_encU32 _ _ h.1.2,
      decBytes_encBytes _ _ h.2]
  | sendMessage gid uid message attachments =>
    simp only [ClientMessage.wf, Bool.and_eq_true, decide_eq_true_eq,
      List.all_eq_true] at h
    have hseq := decSeq_encSeq decBytes encBytes attachments r h.1.2
      (fun b hb rx => decBytes_encBytes b rx
        (by simpa using h.2 b hb))
    simp [encodeClient, decodeClient, List.append_assoc,
      decU32_encU32 _ _ h.1.1.1.1, decU32_encU32 _ _ h.1.1.1.2,
      decBytes_encBytes _ _ h.1.1.2, hseq]
  | downloadAttachment id =>
    simp only [ClientMessage.wf, decide_eq_true_eq] at h
    simp [encodeClient, decodeClient, decU32_encU32 _ _ h]
  | ignoreAttachment id =>
    simp only [ClientMessage.wf, decide_eq_true_eq] at h
    simp [encodeClient, decodeClient, decU32_encU32 _ _ h]
  | pong =>
    simp [encodeClient, decodeClient]

/-- The payload codec is a round trip on well-formed server messages. -/
theorem decodeServer_encodeServer (m : ServerMessage) (r : List Nat)
    (h : m.wf = true) : decodeServer (encodeServer m ++ r) = some (m, r) := by
  cases m with
  | initGroup name gid =>
    simp only [ServerMessage.wf, Bool.and_eq_true, decide_eq_true_eq] at h
    simp [encodeServer, decodeServer, List.append_assoc,
      decBytes_encBytes _ _ h.1, decU32_encU32 _ _ h.2]
  | destroyGroup gid =>
    simp only [ServerMessage.wf, decide_eq_true_eq] at h
    simp [encodeServer, decodeServer, decU32_encU32 _ _ h]
  | initUser gid uid name =>
    simp only [ServerMessage.wf, Bool.and_eq_true, decide_eq_true_eq] at h
    simp [encodeServer, decodeServer, List.append_assoc,
      decU32_encU32 _ _ h.1.1, decU32_encU32 _ _ h.1.2,
      decBytes_encBytes _ _ h.2]
  | destroyUser gid uid =>
    simp only [ServerMessage.wf, Bool.and_eq_true, decide_eq_true_eq] at h
    simp [encodeServer, decodeServer, List.append_assoc,
      decU32_encU32 _ _ h.1, decU32_encU32 _ _ h.2]
  | message gid uid text attachments =>
    simp only [ServerMessage.wf, Bool.and_eq_true, decide_eq_true_eq,
      List.all_eq_true] at h
    have hseq := decSeq_encSeq decAttachment encAttachment attachments r
      h.1.2 (fun a ha rx => by
        have hwa := h.2 a ha
        simp only [Bool.and_eq_true, decide_eq_true_eq] at hwa
        exact decAttachment_encAttachment a rx hwa.1 hwa.2)
    simp [encodeServer, decodeServer, List.append_assoc,
      decU32_encU32 _ _ h.1.1.1.1, decU32_encU32 _ _ h.1.1.1.2,
      decBytes_encBytes _ _ h.1.1.2, hseq]
  | rename gid uid name =>
    simp only [ServerMessage.wf, Bool.and_eq_true, decide_eq_true_eq] at h
    simp [encodeServer, decodeServer, List.append_assoc,
      decU32_encU32 _ _ h.1.1, decU32_encU32 _ _ h.1.2,
      decBytes_encBytes _ _ h.2]
  | confirmUser uid =>
    simp only [ServerMessage.wf, decide_eq_true_eq] at h
    simp [encodeServer, decodeServer, decU32_encU32 _ _ h]
  | confirmGroup gid =>
    simp only [ServerMessage.wf, decide_eq_true_eq] at h
    simp [encodeServer, decodeServer, decU32_encU32 _ _ h]
  | attachment data =>
    simp only [ServerMessage.wf, decide_eq_true_eq] at h
    simp [encodeServer, decodeServer, decBytes_encBytes _ _ h]
  | ping =>
    simp [encodeServer, decodeServer]


/-! ### `Config::write` and `Config::read`

Composition of the payload codec with the chunked frame layer, from
`wire.rs`: `write` serializes, rejects oversized payloads, then emits
the chunked frame; `read` runs the chunk loop and decodes the
accumulated buffer, ignoring the zero padding left after the final
chunk (as `rmp_serde::from_read` ignores unread buffer bytes). -/

/-- The `Config::write` for client messages. -/
def Config.writeClient (c : Config) (m : ClientMessage) :
    Except WireErr (List Nat) :=
  let data := encodeClient m
  if data.length > c.maxSize then .error .sizeLimit
  else .ok (writeChunks data)

/-- The `Config::read` for client messages: returns the decoded message and
the unconsumed remainder of the stream. -/
def Config.readClient (c : Config) (stream : List Nat) :
    Except WireErr (ClientMessage × List Nat) :=
  match readLoop c.maxSize stream [] with
  | .error e => .error e
  | .ok (buffer, rest) =>
    match decodeClient buffer with
    | some (m, _) => .ok (m, rest)
    | none => .error .decode

/-- The `Config::write` for server messages. -/
def Config.writeServer (c : Config) (m : ServerMessage) :
    Except WireErr (List Nat) :=
  let data := encodeServer m
  if data.length > c.maxSize then .error .sizeLimit
  else .ok (writeChunks data)

/-- The `Config::read` for server messages. -/
def Config.readServer (c : Config) (stream : List Nat) :
    Except WireErr (ServerMessage × List Nat) :=
  match readLoop c.maxSize stream [] with
  | .error e => .error e
  | .ok (buffer, rest) =>
    match decodeServer buffer with
    | some (m, _) => .ok (m, rest)
    | none => .error .decode

theorem readClient_writeChunks (c : Config) (m : ClientMessage)
    (hwf : m.wf = true) (hle : (encodeClient m).length ≤ c.maxSize) :
    c.readClient (writeChunks (encodeClient m)) = .ok (m, []) := by
  have hrl := readLoop_writeChunks (encodeClient m) [] [] c.maxSize
    (by simpa using hle)
  rw [List.append_nil] at hrl
  simp only [List.nil_append] at hrl
  rw [Config.readClient, hrl]
  simp only [decodeClient_encodeClient m _ hwf]

theorem readServer_writeChunks (c : Config) (m : ServerMessage)
    (hwf : m.wf = true) (hle : (encodeServer m).length ≤ c.maxSize) :
    c.readServer (writeChunks (encodeServer m)) = .ok (m, []) := by
  have hrl := readLoop_writeChunks (encodeServer m) [] [] c.maxSize
    (by simpa using hle)
  rw [List.append_nil] at hrl
  simp only [List.nil_append] at hrl
  rw [Config.readServer, hrl]
  simp only [decodeServer_encodeServer m _ hwf]

theorem writeClient_ok (c : Config) (m : ClientMessage) (s : List Nat)
    (h : c.writeClient m = .ok s) :
    s = writeChunks (encodeClient m) ∧ (encodeClient m).length ≤ c.maxSize
    := by
  rw [Config.writeClient] at h
  by_cases hgt : (encodeClient m).length > c.maxSize
  · simp only [hgt, if_true] at h
    exact Except.noConfusion h
  · simp only [hgt, if_false, Except.ok.injEq] at h
    exact ⟨h.symm, by omega⟩

theorem writeServer_ok (c : Config) (m : ServerMessage) (s : List Nat)
    (h : c.writeServer m = .ok s) :
    s = writeChunks (encodeServer m) ∧ (encodeServer m).length ≤ c.maxSize
    := by
  rw [Config.writeServer] at h
  by_cases hgt : (encodeServer m).length > c.maxSize
  · simp only [hgt, if_true] at h
    exact Except.noConfusion h
  · simp only [hgt, if_false, Except.ok.injEq] at h
    exact ⟨h.symm, by omega⟩

/-- Claim C1. For every protocol message value `x` (every `ClientMessage`
and `ServerMessage` variant, including messages with an empty attachment
list and with 0-byte attachment blobs), decoding the byte stream
produced by `Config::write` with the same `max_size` via `Config::read`
returns exactly `x`. -/
theorem claim_C1 :
    (∀ (c : Config) (m : ClientMessage) (s : List Nat), m.wf = true →
      c.writeClient m = .ok s → c.readClient s = .ok (m, [])) ∧
    (∀ (c : Config) (m : ServerMessage) (s : List Nat), m.wf = true →
      c.writeServer m = .ok s → c.readServer s = .ok (m, [])) := by
  constructor
  · intro c m s hwf hw
    obtain ⟨hs, hle⟩ := writeClient_ok c m s hw
    rw [hs]
    exact readClient_writeChunks c m hwf hle
  · intro c m s hwf hw
    obtain ⟨hs, hle⟩ := writeServer_ok c m s hw
    rw [hs]
    exact readServer_writeChunks c m hwf hle

/-- Witness for C1 at concrete messages: a `SendMessage` with an empty
attachment list, a `SendMessage` with a 0-byte blob alongside a 2-byte
blob, and a server `Message` event with attachment metadata. -/
theorem claim_C1_witness :
    Config.default.readClient
        (writeChunks (encodeClient (.sendMessage 1 2 [104, 105] []))) =
      .ok (.sendMessage 1 2 [104, 105] [], []) ∧
    Config.default.readClient
        (writeChunks (encodeClient (.sendMessage 1 2 [] [[], [222, 173]])))
      = .ok (.sendMessage 1 2 [] [[], [222, 173]], []) ∧
    Config.default.readServer
        (writeChunks (encodeServer (.message 0 1 [104] [⟨0, 2⟩]))) =
      .ok (.message 0 1 [104] [⟨0, 2⟩], []) :=
  ⟨claim_C1.1 Config.default (.sendMessage 1 2 [104, 105] []) _
      (by decide) rfl,
   claim_C1.1 Config.default (.sendMessage 1 2 [] [[], [222, 173]]) _
      (by decide) rfl,
   claim_C1.2 Config.default (.message 0 1 [104] [⟨0, 2⟩]) _
      (by decide) rfl⟩

/-- Claim C2, counterexample. The frame `Config::write` emits for `Pong` is
`[1, 8]` — a 1-byte chunk length followed by the payload — not the
big-endian `u32` payload length followed by the payload, which would be
`[0, 0, 0, 1, 8]`. -/
theorem claim_C2_counterexample :
    Config.default.writeClient .pong = .ok [1, 8] ∧
    ([1, 8] : List Nat) ≠
      encU32 (encodeClient .pong).length ++ encodeClient .pong := by
  constructor
  · have hwc : writeChunks [8] = [1, 8] := by
      rw [writeChunks_lt [8] (by decide) (by decide)]
      simp
    rw [Config.writeClient]
    simp only [encodeClient]
    rw [hwc]
    simp [Config.default]
  · decide

/-- Claim C2, amended. Every post-handshake wire frame written by
`Config::write` is a sequence of chunks — each a `u8` length byte (at
most 255) followed by that many payload bytes, terminated by the first
chunk of fewer than 255 bytes, with a zero-length terminator chunk when
the payload length is a multiple of 255 — and `Config::read` parses
exactly that shape, consuming the frame and recovering the payload
(followed in its in-memory buffer by the zero padding of the final
255-byte chunk array). -/
theorem claim_C2 :
    (∀ (c : Config) (m : ClientMessage) (s : List Nat),
      c.writeClient m = .ok s → s = writeChunks (encodeClient m)) ∧
    (∀ (c : Config) (m : ServerMessage) (s : List Nat),
      c.writeServer m = .ok s → s = writeChunks (encodeServer m)) ∧
    (∀ (p r : List Nat) (maxSize : Nat), p.length ≤ maxSize →
      readLoop maxSize (writeChunks p ++ r) [] =
        .ok (p ++ List.replicate (255 - p.length % 255) 0, r)) :=
  ⟨fun c m s h => (writeClient_ok c m s h).1,
   fun c m s h => (writeServer_ok c m s h).1,
   fun p r maxSize h =>
     readLoop_writeChunks p [] r maxSize (by simpa using h)⟩

/-- Witness for C2 at a concrete frame: payload `[5, 6]` framed as
`[2, 5, 6]`, parsed back leaving the trailing stream intact. -/
theorem claim_C2_witness :
    readLoop 65535 (writeChunks [5, 6] ++ [9]) [] =
      .ok ([5, 6] ++ List.replicate 253 0, [9]) :=
  claim_C2.2.2 [5, 6] [9] 65535 (by decide)

/-- Claim C3. A message whose serialized payload is exactly `max_size`
bytes is written successfully and read back intact; a payload of
`max_size + 1` bytes or more is rejected with the size-limit error by
both `Config::write` and `Config::read`. -/
theorem claim_C3 : ∀ c : Config,
    (∀ m : ClientMessage, m.wf = true →
      ((encodeClient m).length = c.maxSize →
        c.writeClient m = .ok (writeChunks (encodeClient m)) ∧
        c.readClient (writeChunks (encodeClient m)) = .ok (m, [])) ∧
      (c.maxSize + 1 ≤ (encodeClient m).length →
        c.writeClient m = .error .sizeLimit ∧
        c.readClient (writeChunks (encodeClient m)) = .error .sizeLimit))
    ∧
    (∀ m : ServerMessage, m.wf = true →
      ((encodeServer m).length = c.maxSize →
        c.writeServer m = .ok (writeChunks (encodeServer m)) ∧
        c.readServer (writeChunks (encodeServer m)) = .ok (m, [])) ∧
      (c.maxSize + 1 ≤ (encodeServer m).length →
        c.writeServer m = .error .sizeLimit ∧
        c.readServer (writeChunks (encodeServer m)) = .error .sizeLimit))
    := by
  intro c
  constructor
  · intro m hwf
    constructor
    · intro heq
      refine ⟨?_, readClient_writeChunks c m hwf (by omega)⟩
      rw [Config.writeClient]
      simp only [show ¬ (encodeClient m).length > c.maxSize by omega,
        if_false]
    · intro hgt
      constructor
      · rw [Config.writeClient]
        simp only [show (encodeClient m).length > c.maxSize by omega,
          if_true]
      · have hrl := readLoop_writeChunks_over (encodeClient m) [] []
          c.maxSize (by simp; omega)
        rw [List.append_nil] at hrl
        rw [Config.readClient, hrl]
  · intro m hwf
    constructor
    · intro heq
      refine ⟨?_, readServer_writeChunks c m hwf (by omega)⟩
      rw [Config.writeServer]
      simp only [show ¬ (encodeServer m).length > c.maxSize by omega,
        if_false]
    · intro hgt
      constructor
      · rw [Config.writeServer]
        simp only [show (encodeServer m).length > c.maxSize by omega,
          if_true]
      · have hrl := readLoop_writeChunks_over (encodeServer m) [] []
          c.maxSize (by simp; omega)
        rw [List.append_nil] at hrl
        rw [Config.readServer, hrl]

/-- Witness for C3: with `max_size = 5`, `LeaveGroup` (5-byte payload)
is exactly at the limit and round-trips; with `max_size = 4` the same
payload is one byte over and both directions fail with the size-limit
error. -/
theorem claim_C3_witness :
    (Config.mk 5 |>.writeClient (.leaveGroup 7)) =
      .ok (writeChunks (encodeClient (.leaveGroup 7))) ∧
    (Config.mk 5 |>.readClient
        (writeChunks (encodeClient (.leaveGroup 7)))) =
      .ok (.leaveGroup 7, []) ∧
    (Config.mk 4 |>.writeClient (.leaveGroup 7)) = .error .sizeLimit ∧
    (Config.mk 4 |>.readClient
        (writeChunks (encodeClient (.leaveGroup 7)))) =
      .error .sizeLimit := by
  refine ⟨?_, ?_, ?_, ?_⟩
  · exact (((claim_C3 (Config.mk 5)).1 (.leaveGroup 7) (by decide)).1
      (by decide)).1
  · exact (((claim_C3 (Config.mk 5)).1 (.leaveGroup 7) (by decide)).1
      (by decide)).2
  · exact (((claim_C3 (Config.mk 4)).1 (.leaveGroup 7) (by decide)).2
      (by decide)).1
  · exact (((claim_C3 (Config.mk 4)).1 (.leaveGroup 7) (by decide)).2
      (by decide)).2


/-! ### `AccessToken::from_str`

From `multichat-proto/src/access_token.rs`.  The input string is
modelled as its UTF-8 byte list.  `from_str` checks `s.len() == 64`,
then for each `i` in `0..32` takes the slice `&s[i*2..][..2]` — which
panics when `i*2` or `i*2 + 2` is not a character boundary — and parses
it with `u8::from_str_radix(_, 16)`. -/

/-- Outcome of `AccessToken::from_str`: a parsed 32-byte token, a
`ParseError`, or a panic raised by string slicing. -/
inductive TokenParse where
  | ok (bytes : List Nat)
  | err
  | panic
  deriving DecidableEq, Repr

/-- The `str::is_char_boundary` on a UTF-8 byte list: index 0, the length,
or a byte that is not a continuation byte (`(b as i8) >= -0x40`). -/
def isCharBoundary (s : List Nat) (i : Nat) : Bool :=
  if i = 0 then true
  else
    match s[i]? with
    | some b => decide (b < 128) || decide (192 ≤ b)
    | none => decide (i = s.length)

/-- A hexadecimal digit byte of either case, as accepted by
`char::to_digit(16)`. -/
def isHexDigit (b : Nat) : Bool :=
  (decide (48 ≤ b) && decide (b ≤ 57)) ||
  (decide (97 ≤ b) && decide (b ≤ 102)) ||
  (decide (65 ≤ b) && decide (b ≤ 70))

/-- Value of a hexadecimal digit byte. -/
def hexVal (b : Nat) : Nat :=
  if b ≤ 57 then b - 48 else if b ≤ 70 then b - 55 else b - 87

/-- The `u8::from_str_radix(p, 16)` on a two-byte slice: two hex digits, or
a leading `+` sign followed by one hex digit (unsigned parsing rejects
`-`); anything else is an error. -/
def fromStrRadix16 (p : List Nat) : Option Nat :=
  match p with
  | [a, b] =>
    if isHexDigit a && isHexDigit b then
      some (hexVal a * 16 + hexVal b)
    else if a = 43 && isHexDigit b then
      some (hexVal b)
    else none
  | _ => none

/-- The `for (i, b) in result.iter_mut().enumerate()` loop of
`from_str`, with `n` iterations remaining and current index `i`:
slicing panics on a non-boundary, a failed radix-16 parse returns
`ParseError`, otherwise the parsed byte is accumulated. -/
def tokenLoop (s : List Nat) : Nat → Nat → List Nat → TokenParse
  | 0, _, acc => .ok acc
  | n + 1, i, acc =>
    if isCharBoundary s (2 * i) && isCharBoundary s (2 * i + 2) then
      match fromStrRadix16 ((s.drop (2 * i)).take 2) with
      | some v => tokenLoop s n (i + 1) (acc ++ [v])
      | none => .err
    else .panic

/-- The `AccessToken::from_str` over the UTF-8 bytes of the input. -/
def AccessToken.fromStr (s : List Nat) : TokenParse :=
  if s.length ≠ 64 then .err
  else tokenLoop s 32 0 []

/-- The aligned two-byte pair at index `i` parses under
`u8::from_str_radix(_, 16)`. -/
def validPair (s : List Nat) (i : Nat) : Bool :=
  (fromStrRadix16 ((s.drop (2 * i)).take 2)).isSome

theorem fromStrRadix16_shape (p : List Nat) (v : Nat)
    (h : fromStrRadix16 p = some v) :
    ∃ a b, p = [a, b] ∧ a < 128 ∧ b < 128 := by
  match p with
  | [] => exact absurd h (by simp [fromStrRadix16])
  | [a] => exact absurd h (by simp [fromStrRadix16])
  | a :: b :: c :: t => exact absurd h (by simp [fromStrRadix16])
  | [a, b] =>
    refine ⟨a, b, rfl, ?_, ?_⟩ <;>
      · rw [fromStrRadix16] at h
        by_cases h1 : (isHexDigit a && isHexDigit b) = true
        · simp only [Bool.and_eq_true, isHexDigit, Bool.or_eq_true,
            decide_eq_true_eq] at h1
          omega
        · rw [if_neg (by simpa using h1)] at h
          by_cases h2 : (a = 43 && isHexDigit b) = true
          · simp only [Bool.and_eq_true, isHexDigit, Bool.or_eq_true,
              decide_eq_true_eq] at h2
            omega
          · rw [if_neg (by simpa using h2)] at h
            exact Option.noConfusion h

theorem validPair_head (s : List Nat) (i : Nat)
    (hv : validPair s i = true) :
    ∃ a, s[2 * i]? = some a ∧ a < 128 := by
  rw [validPair, Option.isSome_iff_exists] at hv
  obtain ⟨v, hfr⟩ := hv
  obtain ⟨a, b, hp, ha, _⟩ := fromStrRadix16_shape _ v hfr
  refine ⟨a, ?_, ha⟩
  have h0 : ((s.drop (2 * i)).take 2)[0]? = some a := by rw [hp]; rfl
  rw [List.getElem?_take, if_pos (by omega), List.getElem?_drop] at h0
  simpa using h0

theorem boundary_of_validPair (s : List Nat) (i : Nat)
    (hv : validPair s i = true) : isCharBoundary s (2 * i) = true := by
  obtain ⟨a, hget, ha⟩ := validPair_head s i hv
  rw [isCharBoundary]
  by_cases h0 : 2 * i = 0
  · rw [if_pos h0]
  · rw [if_neg h0, hget]
    simp only [Bool.or_eq_true, decide_eq_true_eq]
    omega

theorem tokenLoop_ok_iff (s : List Nat) (h64 : s.length = 64) :
    ∀ (n i : Nat) (acc : List Nat), i + n = 32 →
    ((∃ t, tokenLoop s n i acc = .ok t) ↔
      ∀ j, i ≤ j → j < 32 → validPair s j = true) := by
  intro n
  induction n with
  | zero =>
    intro i acc hi
    constructor
    · intro _ j hij hj
      omega
    · intro _
      exact ⟨acc, rfl⟩
  | succ n ihn =>
    intro i acc hi
    rw [tokenLoop]
    constructor
    · rintro ⟨t, ht⟩ j hij hj
      by_cases hb : (isCharBoundary s (2 * i) &&
          isCharBoundary s (2 * i + 2)) = true
      · rw [if_pos hb] at ht
        cases hfr : fromStrRadix16 ((s.drop (2 * i)).take 2) with
        | none => rw [hfr] at ht; exact TokenParse.noConfusion ht
        | some v =>
          rw [hfr] at ht
          rcases Nat.eq_or_lt_of_le hij with he | hlt
          · rw [← he, validPair, hfr]
            rfl
          · exact (ihn (i + 1) (acc ++ [v]) (by omega)).mp ⟨t, ht⟩ j
              (by omega) hj
      · rw [if_neg hb] at ht
        exact TokenParse.noConfusion ht
    · intro hall
      have hvi : validPair s i = true := hall i le_rfl (by omega)
      have hb1 : isCharBoundary s (2 * i) = true :=
        boundary_of_validPair s i hvi
      have hb2 : isCharBoundary s (2 * i + 2) = true := by
        by_cases hlast : i + 1 = 32
        · rw [isCharBoundary, if_neg (by omega)]
          have hnone : s[2 * i + 2]? = none := by
            rw [List.getElem?_eq_none]
            omega
          rw [hnone]
          simp only [decide_eq_true_eq]
          omega
        · obtain ⟨a, hget, ha⟩ := validPair_head s (i + 1)
            (hall (i + 1) (by omega) (by omega))
          rw [isCharBoundary, if_neg (by omega)]
          rw [show 2 * i + 2 = 2 * (i + 1) by omega, hget]
          simp only [Bool.or_eq_true, decide_eq_true_eq]
          omega
      rw [if_pos (by rw [hb1, hb2]; rfl)]
      have hvs := hvi
      rw [validPair, Option.isSome_iff_exists] at hvs
      obtain ⟨v, hfr⟩ := hvs
      rw [hfr]
      exact (ihn (i + 1) (acc ++ [v]) (by omega)).mpr
        (fun j h1 h2 => hall j (by omega) h2)

/-- Claim C9, counterexample. The string of 64 `'A'` characters — which is
not lowercase hexadecimal — is accepted by `AccessToken::from_str`
(`u8::from_str_radix` is case-insensitive), contradicting the claim
that only 64-character lowercase-hexadecimal strings are accepted. -/
theorem claim_C9_counterexample :
    AccessToken.fromStr (List.replicate 64 65) =
      .ok (List.replicate 32 170) ∧
    (List.replicate 64 65).all
      (fun b => (decide (48 ≤ b) && decide (b ≤ 57)) ||
        (decide (97 ≤ b) && decide (b ≤ 102))) = false := by
  constructor
  · decide
  · decide

/-- Claim C9, amended. `AccessToken::from_str` accepts a string iff it
is exactly 64 bytes long and each aligned two-byte pair parses under
`u8::from_str_radix(_, 16)` — two hexadecimal digits of either case, or
`'+'` followed by one hexadecimal digit.  Strings of any other length
are rejected with `ParseError`.  (64-byte strings with an invalid pair
are rejected too, except that slicing panics when a pair boundary
splits a multi-byte character — see C10.) -/
theorem claim_C9 :
    (∀ s : List Nat, (∃ t, AccessToken.fromStr s = .ok t) ↔
      (s.length = 64 ∧ ∀ i, i < 32 → validPair s i = true)) ∧
    (∀ s : List Nat, s.length ≠ 64 → AccessToken.fromStr s = .err) := by
  constructor
  · intro s
    constructor
    · rintro ⟨t, ht⟩
      rw [AccessToken.fromStr] at ht
      by_cases h64 : s.length = 64
      · refine ⟨h64, ?_⟩
        rw [if_neg (by simpa using h64)] at ht
        intro i hi
        exact (tokenLoop_ok_iff s h64 32 0 [] rfl).mp ⟨t, ht⟩ i
          (Nat.zero_le i) hi
      · rw [if_pos (by simpa using h64)] at ht
        exact TokenParse.noConfusion ht
    · rintro ⟨h64, hall⟩
      rw [AccessToken.fromStr, if_neg (by simpa using h64)]
      exact (tokenLoop_ok_iff s h64 32 0 [] rfl).mpr
        (fun j _ hj => hall j hj)
  · intro s h64
    rw [AccessToken.fromStr, if_pos (by simpa using h64)]

/-- Witness for C9: the all-lowercase string of 64 `'a'` characters is
accepted, and a 1-byte string is rejected. -/
theorem claim_C9_witness :
    (∃ t, AccessToken.fromStr (List.replicate 64 97) = .ok t) ∧
    AccessToken.fromStr [97] = .err :=
  ⟨(claim_C9.1 (List.replicate 64 97)).mpr ⟨by decide, by decide⟩,
   claim_C9.2 [97] (by decide)⟩

/-- Claim C10. `AccessToken::from_str` is not total: on the 64-byte UTF-8
input `"a" ++ "é"*31 ++ "a"` the very first pair slice `&s[0..][..2]`
asks for byte index 2, which falls inside the two-byte encoding of
`'é'`, so the slice operation panics instead of returning
`Err(ParseError)`. -/
theorem claim_C10 :
    AccessToken.fromStr
      ([97] ++ (List.replicate 31 [195, 169]).flatten ++ [97]) =
      .panic := by
  decide


/-! ### The `slab` allocator

`server.rs` stores groups, users and pending attachments in `slab::Slab`
values.  The model below follows the crate: entries are either occupied
or vacant, vacant entries form a free list threaded through `next`;
`insert` takes the free-list head (or appends), `remove` pushes the
freed key onto the free list. -/

/-- One slot of a `slab::Slab`. -/
inductive Entry (α : Type) where
  | occupied (val : α)
  | vacant (next : Nat)
  deriving DecidableEq, Repr

/-- Whether a slot is occupied. -/
def Entry.isOccupiedB : Entry α → Bool
  | .occupied _ => true
  | .vacant _ => false

/-- The `slab::Slab`: the entry vector and the free-list head `next`. -/
structure Slab (α : Type) where
  entries : List (Entry α)
  next : Nat
  deriving DecidableEq, Repr

/-- The `Slab::new()`. -/
def Slab.empty : Slab α := ⟨[], 0⟩

/-- The `Slab::get`: the value at an occupied key. -/
def Slab.get (s : Slab α) (k : Nat) : Option α :=
  match s.entries[k]? with
  | some (.occupied v) => some v
  | _ => none

/-- The `Slab::insert`: take the free-list head, or append a fresh slot;
returns the key and the new slab.  (The `unreachable!` arm of the crate
— `next` pointing at an occupied slot — keeps `next` unchanged; it
cannot arise from a well-formed slab.) -/
def Slab.insert (s : Slab α) (v : α) : Nat × Slab α :=
  let key := s.next
  if key = s.entries.length then
    (key, ⟨s.entries ++ [.occupied v], key + 1⟩)
  else
    match s.entries[key]? with
    | some (.vacant n) => (key, ⟨s.entries.set key (.occupied v), n⟩)
    | _ => (key, ⟨s.entries.set key (.occupied v), s.next⟩)

/-- The `Slab::try_remove`: extract an occupied entry, pushing its key onto
the free list; vacant or out-of-range keys return `None` and leave the
slab unchanged. -/
def Slab.tryRemove (s : Slab α) (k : Nat) : Option α × Slab α :=
  match s.entries[k]? with
  | some (.occupied v) => (some v, ⟨s.entries.set k (.vacant s.next), k⟩)
  | _ => (none, s)

/-- The `Slab::remove` at a key known to be occupied. -/
def Slab.removeKey (s : Slab α) (k : Nat) : Slab α :=
  (s.tryRemove k).2

/-- Replace the value of an occupied slot in place (a mutation through
`get_mut`; does not touch the free list). -/
def Slab.setOcc (s : Slab α) (k : Nat) (v : α) : Slab α :=
  ⟨s.entries.set k (.occupied v), s.next⟩

/-- Number of occupied slots. -/
def Slab.size (s : Slab α) : Nat :=
  s.entries.countP (fun e => e.isOccupiedB)

/-- Whether slot `i` is vacant. -/
def Slab.isVacant (s : Slab α) (i : Nat) : Bool :=
  match s.entries[i]? with
  | some (.vacant _) => true
  | _ => false

/-- The `Slab::iter` in index order, occupied entries only, starting the
index count at `i`. -/
def toListAux : Nat → List (Entry α) → List (Nat × α)
  | _, [] => []
  | i, .occupied v :: t => (i, v) :: toListAux (i + 1) t
  | i, .vacant _ :: t => toListAux (i + 1) t

/-- The `Slab::iter` as a key/value list in increasing key order. -/
def Slab.toList (s : Slab α) : List (Nat × α) :=
  toListAux 0 s.entries

/-- The `slab.iter().find(...)` on the values, in index order. -/
def Slab.findIdx? (s : Slab α) (p : α → Bool) : Option (Nat × α) :=
  s.toList.find? (fun pr => p pr.2)

/-- Walk the free list from `k`: `some` of the visited keys when the
walk reaches `entries.length` within the fuel. -/
def chainList (es : List (Entry α)) : Nat → Nat → Option (List Nat)
  | 0, _ => none
  | fuel + 1, k =>
    if k = es.length then some []
    else
      match es[k]? with
      | some (.vacant n) =>
        match chainList es fuel n with
        | some l => some (k :: l)
        | none => none
      | _ => none

/-- Well-formedness of a slab, as the crate maintains it: the free list
is a duplicate-free walk ending at `entries.length` that visits exactly
the vacant slots. -/
def Slab.wf (s : Slab α) : Bool :=
  match chainList s.entries (s.entries.length + 1) s.next with
  | some l =>
    decide l.Nodup &&
    decide (∀ i, i < s.entries.length → (s.isVacant i = true ↔ i ∈ l))
  | none => false

theorem chainList_mono {es : List (Entry α)} :
    ∀ (f : Nat) (k : Nat) (l : List Nat), chainList es f k = some l →
    ∀ f', f ≤ f' → chainList es f' k = some l := by
  intro f
  induction f with
  | zero => intro k l h; exact Option.noConfusion h
  | succ f ihf =>
    intro k l h f' hf
    obtain ⟨f'', rfl⟩ : ∃ g, f' = g + 1 := ⟨f' - 1, by omega⟩
    rw [chainList] at h ⊢
    by_cases hk : k = es.length
    · rw [if_pos hk] at h ⊢
      exact h
    · rw [if_neg hk] at h ⊢
      cases hes : es[k]? with
      | none =>
        simp only [hes] at h
        exact Option.noConfusion h
      | some e =>
        cases e with
        | occupied v =>
          simp only [hes] at h
          exact Option.noConfusion h
        | vacant n =>
          simp only [hes] at h ⊢
          cases hc : chainList es f n with
          | none =>
            simp only [hc] at h
            exact Option.noConfusion h
          | some l2 =>
            simp only [hc] at h
            simp only [ihf n l2 hc f'' (by omega)]
            exact h

theorem chainList_elems {es : List (Entry α)} :
    ∀ (f : Nat) (k : Nat) (l : List Nat), chainList es f k = some l →
    ∀ x ∈ l, x < es.length ∧ ∃ n, es[x]? = some (.vacant n) := by
  intro f
  induction f with
  | zero => intro k l h; exact Option.noConfusion h
  | succ f ihf =>
    intro k l h x hx
    rw [chainList] at h
    by_cases hk : k = es.length
    · rw [if_pos hk] at h
      obtain rfl : ([] : List Nat) = l := Option.some.inj h
      exact absurd hx (List.not_mem_nil x)
    · rw [if_neg hk] at h
      cases hes : es[k]? with
      | none =>
        simp only [hes] at h
        exact Option.noConfusion h
      | some e =>
        cases e with
        | occupied v =>
          simp only [hes] at h
          exact Option.noConfusion h
        | vacant n =>
          simp only [hes] at h
          cases hc : chainList es f n with
          | none =>
            simp only [hc] at h
            exact Option.noConfusion h
          | some l2 =>
            simp only [hc] at h
            obtain rfl : k :: l2 = l := Option.some.inj h
            rcases List.mem_cons.mp hx with rfl | hx2
            · refine ⟨?_, n, hes⟩
              by_contra hh
              rw [List.getElem?_eq_none (by omega)] at hes
              exact Option.noConfusion hes
            · exact ihf n l2 hc x hx2

theorem chainList_min {es : List (Entry α)} :
    ∀ (f : Nat) (k : Nat) (l : List Nat), chainList es f k = some l →
    chainList es (l.length + 1) k = some l := by
  intro f
  induction f with
  | zero => intro k l h; exact Option.noConfusion h
  | succ f ihf =>
    intro k l h
    rw [chainList] at h
    by_cases hk : k = es.length
    · rw [if_pos hk] at h
      obtain rfl : ([] : List Nat) = l := Option.some.inj h
      rw [chainList, if_pos hk]
    · rw [if_neg hk] at h
      cases hes : es[k]? with
      | none =>
        simp only [hes] at h
        exact Option.noConfusion h
      | some e =>
        cases e with
        | occupied v =>
          simp only [hes] at h
          exact Option.noConfusion h
        | vacant n =>
          simp only [hes] at h
          cases hc : chainList es f n with
          | none =>
            simp only [hc] at h
            exact Option.noConfusion h
          | some l2 =>
            simp only [hc] at h
            obtain rfl : k :: l2 = l := Option.some.inj h
            have hmin := ihf n l2 hc
            simp only [List.length_cons]
            rw [chainList, if_neg hk]
            simp only [hes, hmin]

theorem chainList_set {es : List (Entry α)} (x : Nat) (e : Entry α) :
    ∀ (f : Nat) (k : Nat) (l : List Nat), chainList es f k = some l →
    x ∉ l → chainList (es.set x e) f k = some l := by
  intro f
  induction f with
  | zero => intro k l h; exact fun _ => Option.noConfusion h
  | succ f ihf =>
    intro k l h hx
    rw [chainList] at h
    rw [chainList, List.length_set]
    by_cases hk : k = es.length
    · rw [if_pos hk] at h ⊢
      exact h
    · rw [if_neg hk] at h ⊢
      cases hes : es[k]? with
      | none =>
        simp only [hes] at h
        exact Option.noConfusion h
      | some e2 =>
        cases e2 with
        | occupied v =>
          simp only [hes] at h
          exact Option.noConfusion h
        | vacant n =>
          simp only [hes] at h
          cases hc : chainList es f n with
          | none =>
            simp only [hc] at h
            exact Option.noConfusion h
          | some l2 =>
            simp only [hc] at h
            obtain rfl : k :: l2 = l := Option.some.inj h
            have hxk : x ≠ k := fun he => hx (he ▸ List.mem_cons_self k l2)
            have hget : (es.set x e)[k]? = some (.vacant n) := by
              rw [List.getElem?_set_ne hxk]
              exact hes
            simp only [hget,
              ihf n l2 hc (fun hm => hx (List.mem_cons_of_mem k hm))]


theorem nodup_length_succ_le (l : List Nat) (n k : Nat) (hn : l.Nodup)
    (hlt : ∀ x ∈ l, x < n) (hne : ∀ x ∈ l, x ≠ k) (hk : k < n) :
    l.length + 1 ≤ n := by
  have h1 : l.toFinset ⊆ (Finset.range n).erase k := fun x hx =>
    Finset.mem_erase.mpr ⟨hne x (List.mem_toFinset.mp hx),
      Finset.mem_range.mpr (hlt x (List.mem_toFinset.mp hx))⟩
  have h2 := Finset.card_le_card h1
  rw [List.toFinset_card_of_nodup hn,
    Finset.card_erase_of_mem (Finset.mem_range.mpr hk),
    Finset.card_range] at h2
  omega

theorem Slab.wf_spec (s : Slab α) (h : s.wf = true) :
    ∃ l, chainList s.entries (s.entries.length + 1) s.next = some l ∧
      l.Nodup ∧
      ∀ i, i < s.entries.length → (s.isVacant i = true ↔ i ∈ l) := by
  rw [Slab.wf] at h
  cases hc : chainList s.entries (s.entries.length + 1) s.next with
  | none =>
    rw [hc] at h
    exact Bool.noConfusion h
  | some l =>
    rw [hc] at h
    simp only [Bool.and_eq_true, decide_eq_true_eq] at h
    exact ⟨l, rfl, h.1, h.2⟩

theorem Slab.wf_intro (s : Slab α) (l : List Nat)
    (hc : chainList s.entries (s.entries.length + 1) s.next = some l)
    (hn : l.Nodup)
    (hiff : ∀ i, i < s.entries.length → (s.isVacant i = true ↔ i ∈ l)) :
    s.wf = true := by
  rw [Slab.wf, hc]
  simp only [Bool.and_eq_true, decide_eq_true_eq]
  exact ⟨hn, hiff⟩

theorem Slab.get_eq_iff (s : Slab α) (k : Nat) (v : α) :
    s.get k = some v ↔ s.entries[k]? = some (.occupied v) := by
  rw [Slab.get]
  cases hes : s.entries[k]? with
  | none => simp
  | some e =>
    cases e with
    | occupied w => simp
    | vacant n => simp

theorem Slab.wf_head (s : Slab α) (h : s.wf = true) :
    s.next = s.entries.length ∨
      ∃ n, s.entries[s.next]? = some (.vacant n) := by
  obtain ⟨l, hc, -, -⟩ := s.wf_spec h
  by_cases hk : s.next = s.entries.length
  · exact Or.inl hk
  · right
    rw [chainList, if_neg hk] at hc
    cases hes : s.entries[s.next]? with
    | none =>
      simp only [hes] at hc
      exact Option.noConfusion hc
    | some e =>
      cases e with
      | occupied v =>
        simp only [hes] at hc
        exact Option.noConfusion hc
      | vacant n => exact ⟨n, rfl⟩

theorem countP_set_occ (p : Entry α → Bool) :
    ∀ (es : List (Entry α)) (k n : Nat) (v : α),
    es[k]? = some (.vacant n) → p (.vacant n) = false →
    p (.occupied v) = true →
    (es.set k (.occupied v)).countP p = es.countP p + 1 := by
  intro es
  induction es with
  | nil =>
    intro k n v h _ _
    simp at h
  | cons e t iht =>
    intro k n v h hpv hpo
    cases k with
    | zero =>
      simp only [List.getElem?_cons_zero, Option.some.injEq] at h
      subst h
      simp [List.set, List.countP_cons, hpv, hpo]
    | succ k =>
      simp only [List.getElem?_cons_succ] at h
      simp only [List.set, List.countP_cons]
      rw [iht k n v h hpv hpo]
      omega

theorem Slab.insert_spec (s : Slab α) (v : α) (h : s.wf = true) :
    s.get (s.insert v).1 = none ∧
    (s.insert v).2.get (s.insert v).1 = some v ∧
    (∀ i, i ≠ (s.insert v).1 → (s.insert v).2.get i = s.get i) ∧
    (s.insert v).2.wf = true ∧
    (s.insert v).2.size = s.size + 1 ∧
    (s.insert v).1 = s.next := by
  obtain ⟨l, hc, hn, hiff⟩ := s.wf_spec h
  rcases s.wf_head h with hnext | ⟨n, hes⟩
  · -- free list empty: append a fresh slot
    have hins : s.insert v =
        (s.next, ⟨s.entries ++ [Entry.occupied v], s.next + 1⟩) := by
      rw [Slab.insert]
      simp [hnext]
    have hlnil : l = [] := by
      rw [chainList, if_pos hnext] at hc
      exact (Option.some.inj hc).symm
    subst hlnil
    rw [hins]
    refine ⟨?_, ?_, ?_, ?_, ?_, rfl⟩
    · rw [Slab.get, List.getElem?_eq_none (by omega)]
    · show Slab.get ⟨s.entries ++ [Entry.occupied v], s.next + 1⟩ s.next =
          some v
      rw [Slab.get]
      have hgl : (s.entries ++ [Entry.occupied v])[s.next]? =
          some (Entry.occupied v) := by
        rw [hnext, List.getElem?_concat_length]
      simp only [hgl]
    · intro i hi
      show Slab.get _ i = _
      rw [Slab.get, Slab.get]
      rcases Nat.lt_or_ge i s.entries.length with hlt | hge
      · rw [List.getElem?_append_left hlt]
      · have h1 : s.entries[i]? = none := List.getElem?_eq_none hge
        have h2 : (s.entries ++ [Entry.occupied v])[i]? = none :=
          List.getElem?_eq_none (by simp; omega)
        rw [h1, h2]
    · apply Slab.wf_intro _ []
      · show chainList _ ((s.entries ++ [Entry.occupied v]).length + 1)
            (s.next + 1) = some []
        rw [chainList]
        rw [if_pos (by simp [hnext])]
      · exact List.nodup_nil
      · intro i hil
        simp only [List.not_mem_nil, iff_false]
        simp only [List.length_append, List.length_singleton] at hil
        show ¬ Slab.isVacant _ i = true
        rw [Slab.isVacant]
        rcases Nat.lt_or_ge i s.entries.length with hlt | hge
        · have hthis := hiff i hlt
          simp only [List.not_mem_nil, iff_false] at hthis
          rw [Slab.isVacant] at hthis
          rw [List.getElem?_append_left hlt]
          exact hthis
        · have hieq : i = s.entries.length := by omega
          subst hieq
          rw [List.getElem?_concat_length]
          simp
    · show Slab.size _ = _ + 1
      rw [Slab.size, Slab.size]
      show (s.entries ++ [Entry.occupied v]).countP _ = _ + 1
      rw [List.countP_append]
      simp [Entry.isOccupiedB]
  · -- take the free-list head
    have hlt : s.next < s.entries.length := by
      by_contra hh
      rw [List.getElem?_eq_none (by omega)] at hes
      exact Option.noConfusion hes
    have hne : ¬ s.next = s.entries.length := by omega
    have hins : s.insert v =
        (s.next, ⟨s.entries.set s.next (Entry.occupied v), n⟩) := by
      rw [Slab.insert]
      simp only [if_neg hne, hes]
    obtain ⟨l2, hc2, hl2⟩ : ∃ l2, chainList s.entries s.entries.length n =
        some l2 ∧ l = s.next :: l2 := by
      rw [chainList, if_neg hne] at hc
      simp only [hes] at hc
      cases hcn : chainList s.entries s.entries.length n with
      | none =>
        simp only [hcn] at hc
        exact Option.noConfusion hc
      | some l2 =>
        simp only [hcn] at hc
        exact ⟨l2, rfl, (Option.some.inj hc).symm⟩
    subst hl2
    have hnmem : s.next ∉ l2 := (List.nodup_cons.mp hn).1
    rw [hins]
    refine ⟨?_, ?_, ?_, ?_, ?_, rfl⟩
    · rw [Slab.get, hes]
    · show Slab.get _ s.next = some v
      rw [Slab.get]
      rw [List.getElem?_set_eq_of_lt _ hlt]
    · intro i hi
      show Slab.get _ i = _
      rw [Slab.get, Slab.get,
        List.getElem?_set_ne (fun he => hi he.symm)]
    · apply Slab.wf_intro _ l2
      · show chainList (s.entries.set s.next (Entry.occupied v))
            ((s.entries.set s.next (Entry.occupied v)).length + 1) n =
          some l2
        rw [List.length_set]
        refine chainList_set s.next (Entry.occupied v) _ n l2 ?_ hnmem
        exact chainList_mono _ n l2 hc2 (s.entries.length + 1) (by omega)
      · exact (List.nodup_cons.mp hn).2
      · intro i hil
        rw [List.length_set] at hil
        show Slab.isVacant _ i = true ↔ _
        by_cases hisn : i = s.next
        · subst hisn
          constructor
          · intro hv
            rw [Slab.isVacant,
              List.getElem?_set_eq_of_lt _ hlt] at hv
            exact Bool.noConfusion hv
          · intro hm
            exact absurd hm hnmem
        · have hthis := hiff i hil
          rw [Slab.isVacant] at hthis ⊢
          rw [List.getElem?_set_ne (fun he => hisn he.symm)]
          rw [hthis]
          simp [List.mem_cons, hisn]
    · show Slab.size _ = _ + 1
      rw [Slab.size, Slab.size]
      exact countP_set_occ _ s.entries s.next n v hes rfl rfl

theorem Slab.tryRemove_none (s : Slab α) (k : Nat)
    (hget : s.get k = none) : s.tryRemove k = (none, s) := by
  rw [Slab.tryRemove]
  cases hes : s.entries[k]? with
  | none => rfl
  | some e =>
    cases e with
    | occupied v =>
      rw [Slab.get, hes] at hget
      exact Option.noConfusion hget
    | vacant n => rfl

theorem Slab.tryRemove_spec (s : Slab α) (k : Nat) (v : α)
    (h : s.wf = true) (hget : s.get k = some v) :
    (s.tryRemove k).1 = some v ∧
    (s.tryRemove k).2.get k = none ∧
    (∀ i, i ≠ k → (s.tryRemove k).2.get i = s.get i) ∧
    (s.tryRemove k).2.wf = true := by
  have hes := (s.get_eq_iff k v).mp hget
  have hlt : k < s.entries.length := by
    by_contra hh
    rw [List.getElem?_eq_none (by omega)] at hes
    exact Option.noConfusion hes
  obtain ⟨l, hc, hn, hiff⟩ := s.wf_spec h
  have hknl : k ∉ l := by
    intro hm
    have hthis := (hiff k hlt).mpr hm
    rw [Slab.isVacant, hes] at hthis
    exact Bool.noConfusion hthis
  have htr : s.tryRemove k =
      (some v, ⟨s.entries.set k (Entry.vacant s.next), k⟩) := by
    rw [Slab.tryRemove]
    simp only [hes]
  rw [htr]
  refine ⟨rfl, ?_, ?_, ?_⟩
  · show Slab.get _ k = none
    rw [Slab.get, List.getElem?_set_eq_of_lt _ hlt]
  · intro i hi
    show Slab.get _ i = _
    rw [Slab.get, Slab.get,
      List.getElem?_set_ne (fun he => hi he.symm)]
  · have hlen : l.length + 1 ≤ s.entries.length := by
      refine nodup_length_succ_le l s.entries.length k hn ?_ ?_ hlt
      · exact fun x hx => (chainList_elems _ _ _ hc x hx).1
      · intro x hx he
        exact hknl (he ▸ hx)
    apply Slab.wf_intro _ (k :: l)
    · show chainList (s.entries.set k (Entry.vacant s.next))
          ((s.entries.set k (Entry.vacant s.next)).length + 1) k =
        some (k :: l)
      rw [List.length_set, chainList]
      simp only [List.length_set]
      rw [if_neg (by omega)]
      have hgk : (s.entries.set k (Entry.vacant s.next))[k]? =
          some (.vacant s.next) := List.getElem?_set_eq_of_lt _ hlt
      have hmin := chainList_min _ s.next l hc
      have hset := chainList_set k (Entry.vacant s.next) _ s.next l hmin
        hknl
      have hmono := chainList_mono _ s.next l hset s.entries.length
        (by omega)
      simp only [hgk, hmono]
    · exact List.nodup_cons.mpr ⟨hknl, hn⟩
    · intro i hil
      rw [List.length_set] at hil
      show Slab.isVacant _ i = true ↔ _
      by_cases hik : i = k
      · subst hik
        rw [Slab.isVacant, List.getElem?_set_eq_of_lt _ hlt]
        simp
      · have hthis := hiff i hil
        rw [Slab.isVacant] at hthis ⊢
        rw [List.getElem?_set_ne (fun he => hik he.symm), hthis]
        simp [List.mem_cons, hik]


theorem toListAux_mem : ∀ (es : List (Entry α)) (i k : Nat) (v : α),
    (k, v) ∈ toListAux i es ↔
      ∃ j, k = i + j ∧ es[j]? = some (.occupied v) := by
  intro es
  induction es with
  | nil =>
    intro i k v
    simp [toListAux]
  | cons e t iht =>
    intro i k v
    cases e with
    | occupied w =>
      rw [toListAux]
      simp only [List.mem_cons, iht (i + 1) k v, Prod.mk.injEq]
      constructor
      · rintro (⟨rfl, rfl⟩ | ⟨j, rfl, hj⟩)
        · exact ⟨0, by omega, by simp⟩
        · exact ⟨j + 1, by omega, by simpa using hj⟩
      · rintro ⟨j, rfl, hj⟩
        cases j with
        | zero =>
          left
          simp only [List.getElem?_cons_zero, Option.some.injEq,
            Entry.occupied.injEq] at hj
          exact ⟨by omega, hj.symm⟩
        | succ j =>
          right
          refine ⟨j, by omega, ?_⟩
          simpa using hj
    | vacant n =>
      rw [toListAux]
      rw [iht (i + 1) k v]
      constructor
      · rintro ⟨j, rfl, hj⟩
        exact ⟨j + 1, by omega, by simpa using hj⟩
      · rintro ⟨j, rfl, hj⟩
        cases j with
        | zero => simp at hj
        | succ j =>
          refine ⟨j, by omega, ?_⟩
          simpa using hj

theorem Slab.get_iff_mem_toList (s : Slab α) (k : Nat) (v : α) :
    s.get k = some v ↔ (k, v) ∈ s.toList := by
  rw [Slab.get_eq_iff, Slab.toList, toListAux_mem]
  constructor
  · intro h
    exact ⟨k, by omega, h⟩
  · rintro ⟨j, rfl, hj⟩
    simpa using hj

theorem toListAux_keys_ge : ∀ (es : List (Entry α)) (i : Nat),
    ∀ p ∈ toListAux i es, i ≤ p.1 := by
  intro es
  induction es with
  | nil =>
    intro i p hp
    simp [toListAux] at hp
  | cons e t iht =>
    intro i p hp
    cases e with
    | occupied w =>
      rw [toListAux] at hp
      rcases List.mem_cons.mp hp with rfl | hp2
      · exact le_rfl
      · exact le_trans (by omega) (iht (i + 1) p hp2)
    | vacant n =>
      rw [toListAux] at hp
      exact le_trans (by omega) (iht (i + 1) p hp)

theorem toListAux_keys_nodup : ∀ (es : List (Entry α)) (i : Nat),
    ((toListAux i es).map Prod.fst).Nodup := by
  intro es
  induction es with
  | nil =>
    intro i
    simp [toListAux]
  | cons e t iht =>
    intro i
    cases e with
    | occupied w =>
      rw [toListAux]
      simp only [List.map_cons, List.nodup_cons]
      refine ⟨?_, iht (i + 1)⟩
      intro hmem
      obtain ⟨p, hp, hpe⟩ := List.mem_map.mp hmem
      have := toListAux_keys_ge t (i + 1) p hp
      omega
    | vacant n =>
      rw [toListAux]
      exact iht (i + 1)

/-- Keys produced by `Slab::iter` are distinct. -/
theorem Slab.toList_keys_nodup (s : Slab α) :
    (s.toList.map Prod.fst).Nodup :=
  toListAux_keys_nodup s.entries 0

/-! ### Server connection handlers

Shallow embedding of the `ClientMessage` arms of `connection` in
`multichat-server/src/server.rs`, with the connection identified by its
socket address (a `Nat` here), the registry as a `Slab Group`, and a
group's broadcast receivers as its `subscribers` list (one receiver per
membership relay task; `receiver_count` is its length).  Handlers return
their result together with the registry and membership state at exit,
so error paths carry the state unchanged exactly when the source
returns before mutating. -/

/-- The `User` from `server.rs`: name and owning connection. -/
structure User where
  name : List Nat
  owner : Nat
  deriving DecidableEq, Repr

/-- The `Group` from `server.rs`: name, user slab, and the broadcast
subscriber set (standing in for the channel's receivers). -/
structure Group where
  name : List Nat
  users : Slab User
  subscribers : List Nat
  deriving DecidableEq, Repr

/-- The fatal protocol-violation errors of the command arms. -/
inductive ServerErr where
  | joinGroupTwice
  | leaveNonexistentGroup
  | leaveNonJoinedGroup
  | destroyUserNonexistentGroup
  | destroyNonexistentUser
  | destroyNonOwnedUser
  | sendNonexistentGroup
  | sendNonexistentUser
  | sendNonOwnedUser
  | downloadNonexistentAttachment
  | ignoreNonexistentAttachment
  deriving DecidableEq, Repr

/-- The `GroupUpdate` from `server.rs`. -/
inductive GroupUpdateKind where
  | initUser (name : List Nat)
  | destroyUser
  | message (text : List Nat) (attachments : List (List Nat))
  | rename (name : List Nat)
  deriving DecidableEq, Repr

/-- A group-broadcast event. -/
structure GroupUpdate where
  uid : Nat
  kind : GroupUpdateKind
  deriving DecidableEq, Repr

/-- The `GlobalUpdate` from `server.rs`. -/
inductive GlobalUpdateKind where
  | initGroup (name : List Nat)
  | destroyGroup
  deriving DecidableEq, Repr

/-- A global broadcast event. -/
structure GlobalUpdate where
  gid : Nat
  kind : GlobalUpdateKind
  deriving DecidableEq, Repr

/-- The `memberships.contains_key(&gid)`. -/
def msContains (ms : List (Nat × Bool)) (gid : Nat) : Bool :=
  ms.any (fun p => p.1 == gid)

/-- The `memberships.insert(gid, m)` (replacing any previous entry). -/
def msInsert (ms : List (Nat × Bool)) (gid : Nat) (b : Bool) :
    List (Nat × Bool) :=
  ms.filter (fun p => p.1 != gid) ++ [(gid, b)]

/-- The `memberships.remove(&gid)`. -/
def msRemove (ms : List (Nat × Bool)) (gid : Nat) : List (Nat × Bool) :=
  ms.filter (fun p => p.1 != gid)

/-- The `ClientMessage::JoinGroup` arm: find the group by name (first
match in slab order) or create it; subscribe this connection; a double
join is fatal; for an existing group the user snapshot is written
before `ConfirmGroup`, for a new group a global `InitGroup` is
broadcast.  Returns (result, registry, memberships). -/
def handleJoinGroup (groups : Slab Group) (ms : List (Nat × Bool))
    (conn : Nat) (name : List Nat) :
    Except ServerErr (List ServerMessage × List GlobalUpdate) ×
      Slab Group × List (Nat × Bool) :=
  match groups.findIdx? (fun g => g.name == name) with
  | some (gid, group) =>
    let groups' := groups.setOcc gid
      { group with subscribers := group.subscribers ++ [conn] }
    let ms' := msInsert ms gid true
    if msContains ms gid then (.error .joinGroupTwice, groups', ms')
    else
      (.ok ((group.users.toList.map
          (fun p => ServerMessage.initUser gid p.1 p.2.name)) ++
          [.confirmGroup gid], []),
        groups', ms')
  | none =>
    let res := groups.insert
      { name := name, users := .empty, subscribers := [conn] }
    let ms' := msInsert ms res.1 true
    if msContains ms res.1 then (.error .joinGroupTwice, res.2, ms')
    else
      (.ok ([.confirmGroup res.1], [⟨res.1, .initGroup name⟩]),
        res.2, ms')

/-- The `Slab::retain` as in the crate: visit indices in order, removing
entries that fail the predicate; returns the slab and the removed
key/value pairs in index order. -/
def retainAux (f : Nat → α → Bool) :
    Nat → Nat → Slab α → Slab α × List (Nat × α)
  | 0, _, s => (s, [])
  | n + 1, i, s =>
    match s.get i with
    | some v =>
      if f i v then retainAux f n (i + 1) s
      else
        let r := retainAux f n (i + 1) (s.tryRemove i).2
        (r.1, (i, v) :: r.2)
    | none => retainAux f n (i + 1) s

/-- The `Slab::retain`. -/
def Slab.retain (s : Slab α) (f : Nat → α → Bool) :
    Slab α × List (Nat × α) :=
  retainAux f s.entries.length 0 s

/-- The `Group::cleanup_users`: drop this connection's users, broadcasting
`DestroyUser` for each. -/
def Group.cleanupUsers (g : Group) (conn : Nat) :
    Group × List GroupUpdate :=
  let r := g.users.retain (fun _ u => !(u.owner == conn))
  ({ g with users := r.1 }, r.2.map (fun p => ⟨p.1, .destroyUser⟩))

/-- The `ClientMessage::LeaveGroup` arm: the group must exist and be
joined; unsubscribe, destroy this connection's users in it, and destroy
the group (broadcasting a global `DestroyGroup`) when no subscriber
remains. -/
def handleLeaveGroup (groups : Slab Group) (ms : List (Nat × Bool))
    (conn gid : Nat) :
    Except ServerErr (List GroupUpdate × List GlobalUpdate) ×
      Slab Group × List (Nat × Bool) :=
  match groups.get gid with
  | none => (.error .leaveNonexistentGroup, groups, ms)
  | some group =>
    if msContains ms gid = false then
      (.error .leaveNonJoinedGroup, groups, ms)
    else
      let cg := Group.cleanupUsers
        { group with subscribers := group.subscribers.erase conn } conn
      if cg.1.subscribers.isEmpty then
        (.ok (cg.2, [⟨gid, .destroyGroup⟩]), groups.removeKey gid,
          msRemove ms gid)
      else
        (.ok (cg.2, []), groups.setOcc gid cg.1, msRemove ms gid)

/-- The `ClientMessage::DestroyUser` arm: the group and user must
exist and the user must be owned by this connection; only then is the
user removed and a `DestroyUser` broadcast. -/
def handleDestroyUser (groups : Slab Group) (conn gid uid : Nat) :
    Except ServerErr (List GroupUpdate) × Slab Group :=
  match groups.get gid with
  | none => (.error .destroyUserNonexistentGroup, groups)
  | some group =>
    match group.users.get uid with
    | none => (.error .destroyNonexistentUser, groups)
    | some user =>
      if user.owner != conn then (.error .destroyNonOwnedUser, groups)
      else
        (.ok [⟨uid, .destroyUser⟩],
          groups.setOcc gid
            { group with users := (group.users.tryRemove uid).2 })

/-- The `ClientMessage::SendMessage` arm: ownership checks, then the
`Message` group update is sent to every subscriber of the group — the
broadcast has no self-exclusion, so the sending connection's own relay
receives it too. -/
def handleSendMessage (groups : Slab Group) (conn gid uid : Nat)
    (text : List Nat) (blobs : List (List Nat)) :
    Except ServerErr (List (Nat × GroupUpdate)) × Slab Group :=
  match groups.get gid with
  | none => (.error .sendNonexistentGroup, groups)
  | some group =>
    match group.users.get uid with
    | none => (.error .sendNonexistentUser, groups)
    | some user =>
      if user.owner != conn then (.error .sendNonOwnedUser, groups)
      else
        (.ok (group.subscribers.map
          (fun c => (c, ⟨uid, .message text blobs⟩))), groups)

/-- The attachment-allocation loop of the `GroupUpdateKind::Message`
arm: insert each blob into this connection's attachment slab and record
its id and size. -/
def allocAttachments :
    Slab (List Nat) → List (List Nat) → Slab (List Nat) × List Attachment
  | att, [] => (att, [])
  | att, b :: bs =>
    let r := att.insert b
    let rest := allocAttachments r.2 bs
    (rest.1, ⟨r.1, b.length⟩ :: rest.2)

/-- The `GroupUpdateKind::Message` arm of the group-update handler, run
on every connection that receives the broadcast: allocate one
attachment slot per blob and emit the `Message` server event. -/
def handleGroupMessage (att : Slab (List Nat)) (gid uid : Nat)
    (text : List Nat) (blobs : List (List Nat)) :
    Slab (List Nat) × ServerMessage :=
  let r := allocAttachments att blobs
  (r.1, .message gid uid text r.2)

/-- The `ClientMessage::DownloadAttachment` arm: `try_remove` the id;
a dead id is fatal, a live one is consumed and its bytes are sent. -/
def handleDownloadAttachment (att : Slab (List Nat)) (id : Nat) :
    Except ServerErr ServerMessage × Slab (List Nat) :=
  match att.tryRemove id with
  | (some data, att') => (.ok (.attachment data), att')
  | (none, att') => (.error .downloadNonexistentAttachment, att')

/-- The `ClientMessage::IgnoreAttachment` arm. -/
def handleIgnoreAttachment (att : Slab (List Nat)) (id : Nat) :
    Except ServerErr Unit × Slab (List Nat) :=
  match att.tryRemove id with
  | (some _, att') => (.ok (), att')
  | (none, att') => (.error .ignoreNonexistentAttachment, att')


theorem allocAttachments_spec :
    ∀ (blobs : List (List Nat)) (att : Slab (List Nat)),
    att.wf = true →
    (allocAttachments att blobs).1.wf = true ∧
    (allocAttachments att blobs).1.size = att.size + blobs.length ∧
    (allocAttachments att blobs).2.length = blobs.length ∧
    (∀ i v, att.get i = some v →
      (allocAttachments att blobs).1.get i = some v) := by
  intro blobs
  induction blobs with
  | nil =>
    intro att h
    exact ⟨h, by simp [allocAttachments], by simp [allocAttachments],
      fun i v hv => hv⟩
  | cons b bs ih =>
    intro att h
    obtain ⟨hfresh, hgetk, hother, hwf2, hsize, hkey⟩ := att.insert_spec b h
    have ihs := ih (att.insert b).2 hwf2
    simp only [allocAttachments, List.length_cons]
    refine ⟨ihs.1, ?_, ?_, ?_⟩
    · rw [ihs.2.1, hsize]
      omega
    · simp [ihs.2.2.1]
    · intro i v hv
      have hne : i ≠ (att.insert b).1 := by
        intro he
        rw [he, hfresh] at hv
        exact Option.noConfusion hv
      refine ihs.2.2.2 i v ?_
      rw [hother i hne]
      exact hv

theorem handleDownload_state (att : Slab (List Nat)) (id : Nat) :
    (handleDownloadAttachment att id).2 = (att.tryRemove id).2 := by
  rw [handleDownloadAttachment]
  rcases htr : att.tryRemove id with ⟨o, t⟩
  cases o <;> rfl

theorem handleIgnore_state (att : Slab (List Nat)) (id : Nat) :
    (handleIgnoreAttachment att id).2 = (att.tryRemove id).2 := by
  rw [handleIgnoreAttachment]
  rcases htr : att.tryRemove id with ⟨o, t⟩
  cases o <;> rfl

/-- An operation of the per-connection attachment lifecycle: a `Message`
delivery allocating slots for its blobs, or a consumption attempt. -/
inductive AttachOp where
  | deliver (blobs : List (List Nat))
  | download (id : Nat)
  | ignore (id : Nat)
  deriving DecidableEq, Repr

/-- Whether the operation consumes the given attachment id. -/
def AttachOp.consumes : AttachOp → Nat → Bool
  | .deliver _, _ => false
  | .download j, i => j == i
  | .ignore j, i => j == i

/-- Effect of an attachment operation on the connection's slab. -/
def applyAttachOp (s : Slab (List Nat)) : AttachOp → Slab (List Nat)
  | .deliver blobs => (allocAttachments s blobs).1
  | .download j => (handleDownloadAttachment s j).2
  | .ignore j => (handleIgnoreAttachment s j).2

theorem attachOps_preserve :
    ∀ (ops : List AttachOp) (s : Slab (List Nat)) (id : Nat)
      (blob : List Nat),
    s.wf = true → s.get id = some blob →
    (∀ op ∈ ops, op.consumes id = false) →
    (ops.foldl applyAttachOp s).wf = true ∧
    (ops.foldl applyAttachOp s).get id = some blob := by
  intro ops
  induction ops with
  | nil =>
    intro s id blob hw hg _
    exact ⟨hw, hg⟩
  | cons op rest ih =>
    intro s id blob hw hg hc
    have hop := hc op (List.mem_cons_self op rest)
    have hstep : (applyAttachOp s op).wf = true ∧
        (applyAttachOp s op).get id = some blob := by
      cases op with
      | deliver blobs =>
        have hsp := allocAttachments_spec blobs s hw
        exact ⟨hsp.1, hsp.2.2.2 id blob hg⟩
      | download j =>
        simp only [AttachOp.consumes, beq_eq_false_iff_ne, ne_eq] at hop
        rw [show applyAttachOp s (.download j) =
            (handleDownloadAttachment s j).2 from rfl,
          handleDownload_state]
        cases hgj : s.get j with
        | none =>
          rw [Slab.tryRemove_none s j hgj]
          exact ⟨hw, hg⟩
        | some w =>
          obtain ⟨-, -, hoth, hwf2⟩ := s.tryRemove_spec j w hw hgj
          exact ⟨hwf2, by rw [hoth id (fun he => hop he.symm)]; exact hg⟩
      | ignore j =>
        simp only [AttachOp.consumes, beq_eq_false_iff_ne, ne_eq] at hop
        rw [show applyAttachOp s (.ignore j) =
            (handleIgnoreAttachment s j).2 from rfl,
          handleIgnore_state]
        cases hgj : s.get j with
        | none =>
          rw [Slab.tryRemove_none s j hgj]
          exact ⟨hw, hg⟩
        | some w =>
          obtain ⟨-, -, hoth, hwf2⟩ := s.tryRemove_spec j w hw hgj
          exact ⟨hwf2, by rw [hoth id (fun he => hop he.symm)]; exact hg⟩
    rw [List.foldl_cons]
    exact ih (applyAttachOp s op) id blob hstep.1 hstep.2
      (fun o ho => hc o (List.mem_cons_of_mem op ho))

/-- Claim C4. For every `JoinGroup` of an already-existing group, at the
moment the `ConfirmGroup{gid}` reply is sent, the `InitUser` events
already written to the joining connection are exactly one per user of
the group's user slab at the snapshot instant — no duplicates (slab
keys are distinct) and no omissions (membership in the snapshot list is
equivalent to presence in the slab). -/
theorem claim_C4 (groups : Slab Group) (ms : List (Nat × Bool))
    (conn : Nat) (name : List Nat) (gid : Nat) (group : Group)
    (hfind : groups.findIdx? (fun g => g.name == name) =
      some (gid, group))
    (hms : msContains ms gid = false) :
    (handleJoinGroup groups ms conn name).1 =
      .ok ((group.users.toList.map
        (fun p => ServerMessage.initUser gid p.1 p.2.name)) ++
        [.confirmGroup gid], []) ∧
    (group.users.toList.map Prod.fst).Nodup ∧
    (∀ uid u, group.users.get uid = some u ↔
      (uid, u) ∈ group.users.toList) := by
  refine ⟨?_, group.users.toList_keys_nodup,
    fun uid u => group.users.get_iff_mem_toList uid u⟩
  rw [handleJoinGroup, hfind]
  simp only [hms]
  rfl

/-- Witness state for C4: one group `[108]` with users `0 ↦ [97]` and
`2 ↦ [98]` (slot 1 vacant), one prior subscriber. -/
def sampleUsers : Slab User :=
  ⟨[.occupied ⟨[97], 3⟩, .vacant 2, .occupied ⟨[98], 4⟩], 1⟩

/-- Witness registry for C4. -/
def sampleGroups : Slab Group :=
  ⟨[.occupied ⟨[108], sampleUsers, [3]⟩], 1⟩

/-- Witness for C4 at the sample registry. -/
theorem claim_C4_witness :
    (handleJoinGroup sampleGroups [] 9 [108]).1 =
      .ok ((sampleUsers.toList.map
        (fun p => ServerMessage.initUser 0 p.1 p.2.name)) ++
        [.confirmGroup 0], []) ∧
    (sampleUsers.toList.map Prod.fst).Nodup ∧
    (∀ uid u, sampleUsers.get uid = some u ↔
      (uid, u) ∈ sampleUsers.toList) :=
  claim_C4 sampleGroups [] 9 [108] 0 ⟨[108], sampleUsers, [3]⟩
    (by decide) (by decide)

/-- Claim C5. A `DestroyUser{gid,uid}` for a user owned by a different
connection terminates the issuing connection with an error, leaves the
registry — and hence the user and its name — unchanged, and broadcasts
no `DestroyUser` event. -/
theorem claim_C5 (groups : Slab Group) (conn gid uid : Nat)
    (group : Group) (user : User)
    (hg : groups.get gid = some group)
    (hu : group.users.get uid = some user)
    (ho : user.owner ≠ conn) :
    handleDestroyUser groups conn gid uid =
      (.error .destroyNonOwnedUser, groups) := by
  rw [handleDestroyUser]
  simp only [hg, hu, bne_iff_ne, ne_eq, ho, not_false_eq_true, if_true]

/-- Witness for C5: connection 4 attempts to destroy user 0 owned by
connection 3. -/
theorem claim_C5_witness :
    handleDestroyUser
        ⟨[.occupied ⟨[108], ⟨[.occupied ⟨[97], 3⟩], 1⟩, [3, 4]⟩], 1⟩
        4 0 0 =
      (.error .destroyNonOwnedUser,
        ⟨[.occupied ⟨[108], ⟨[.occupied ⟨[97], 3⟩], 1⟩, [3, 4]⟩], 1⟩) :=
  claim_C5 _ 4 0 0 ⟨[108], ⟨[.occupied ⟨[97], 3⟩], 1⟩, [3, 4]⟩
    ⟨[97], 3⟩ (by decide) (by decide) (by decide)

/-- Claim C6. A live attachment id is consumed by `DownloadAttachment`:
the reply carries exactly the stored blob and the entry is removed; a
subsequent `DownloadAttachment` or `IgnoreAttachment` of the same id
fails (dropping the connection); and as long as the id is live, no
sequence of non-consuming operations (further `Message` deliveries,
downloads or ignores of other ids) reassigns it — the id still maps to
the original blob. -/
theorem claim_C6 (att : Slab (List Nat)) (id : Nat) (blob : List Nat)
    (hwf : att.wf = true) (hget : att.get id = some blob) :
    (handleDownloadAttachment att id).1 = .ok (.attachment blob) ∧
    (handleDownloadAttachment att id).2.get id = none ∧
    (handleDownloadAttachment (handleDownloadAttachment att id).2 id).1 =
      .error .downloadNonexistentAttachment ∧
    (handleIgnoreAttachment (handleDownloadAttachment att id).2 id).1 =
      .error .ignoreNonexistentAttachment ∧
    (∀ ops : List AttachOp, (∀ op ∈ ops, op.consumes id = false) →
      (ops.foldl applyAttachOp att).get id = some blob) := by
  obtain ⟨h1, h2, h3, h4⟩ := att.tryRemove_spec id blob hwf hget
  have hpair : att.tryRemove id = (some blob, (att.tryRemove id).2) := by
    rw [← h1]
  have hd : handleDownloadAttachment att id =
      (.ok (.attachment blob), (att.tryRemove id).2) := by
    rw [handleDownloadAttachment, hpair]
  have hd2 : (handleDownloadAttachment att id).2 =
      (att.tryRemove id).2 := by
    rw [hd]
  refine ⟨by rw [hd], by rw [hd2]; exact h2, ?_, ?_, ?_⟩
  · rw [hd2, handleDownloadAttachment,
      Slab.tryRemove_none (att.tryRemove id).2 id h2]
  · rw [hd2, handleIgnoreAttachment,
      Slab.tryRemove_none (att.tryRemove id).2 id h2]
  · intro ops hops
    exact (attachOps_preserve ops att id blob hwf hget hops).2

/-- Witness for C6: a slab holding blob `[222, 173]` at id 0; the
non-consuming history delivers one more message and downloads id 1. -/
theorem claim_C6_witness :
    (handleDownloadAttachment ⟨[.occupied [222, 173]], 1⟩ 0).1 =
      .ok (.attachment [222, 173]) ∧
    ([AttachOp.deliver [[1]], AttachOp.download 1].foldl applyAttachOp
        ⟨[.occupied [222, 173]], 1⟩).get 0 = some [222, 173] :=
  ⟨(claim_C6 ⟨[.occupied [222, 173]], 1⟩ 0 [222, 173] (by decide)
      (by decide)).1,
   (claim_C6 ⟨[.occupied [222, 173]], 1⟩ 0 [222, 173] (by decide)
      (by decide)).2.2.2.2 [AttachOp.deliver [[1]], AttachOp.download 1]
      (by decide)⟩

/-- Claim C7, counterexample. Connection 5 creates group `[108]` (gid 0),
then leaves it, destroying it; connection 6 then joins `[108]` again
and receives `ConfirmGroup 0` — the *same* gid, because the slab
allocator reuses the freed slot.  The claim that the new gid differs
from the destroyed gid is false. -/
theorem claim_C7_counterexample :
    ((handleJoinGroup Slab.empty [] 5 [108]).1 =
      .ok ([.confirmGroup 0], [⟨0, .initGroup [108]⟩])) ∧
    ((handleLeaveGroup (handleJoinGroup Slab.empty [] 5 [108]).2.1
        (handleJoinGroup Slab.empty [] 5 [108]).2.2 5 0).1 =
      .ok ([], [⟨0, .destroyGroup⟩])) ∧
    ((handleJoinGroup
        (handleLeaveGroup (handleJoinGroup Slab.empty [] 5 [108]).2.1
          (handleJoinGroup Slab.empty [] 5 [108]).2.2 5 0).2.1
        [] 6 [108]).1 =
      .ok ([.confirmGroup 0], [⟨0, .initGroup [108]⟩])) := by
  refine ⟨?_, ?_, ?_⟩ <;> decide

/-- Claim C7, amended. After a group is destroyed because all of its
subscribers left, its slot becomes the head of the registry's free
list; a later `JoinGroup` with the same (now absent) name creates a
fresh, empty group whose gid is allocated from that free list — in
particular, when the destroyed slot is still the free-list head, the
new gid *equals* the destroyed group's gid. -/
theorem claim_C7 :
    (∀ (groups : Slab Group) (ms : List (Nat × Bool)) (conn gid : Nat)
      (group : Group),
      groups.get gid = some group → msContains ms gid = true →
      (group.subscribers.erase conn).isEmpty = true →
      (handleLeaveGroup groups ms conn gid).2.1.next = gid ∧
      (handleLeaveGroup groups ms conn gid).2.1.isVacant gid = true) ∧
    (∀ (groups : Slab Group) (ms : List (Nat × Bool)) (conn : Nat)
      (name : List Nat) (gid n : Nat),
      groups.findIdx? (fun g => g.name == name) = none →
      groups.next = gid →
      groups.entries[gid]? = some (.vacant n) →
      msContains ms gid = false →
      (handleJoinGroup groups ms conn name).1 =
        .ok ([.confirmGroup gid], [⟨gid, .initGroup name⟩]) ∧
      (handleJoinGroup groups ms conn name).2.1.get gid =
        some ⟨name, Slab.empty, [conn]⟩) := by
  constructor
  · intro groups ms conn gid group hg hms hemp
    have hes := (groups.get_eq_iff gid group).mp hg
    have hlt : gid < groups.entries.length := by
      by_contra hh
      rw [List.getElem?_eq_none (by omega)] at hes
      exact Option.noConfusion hes
    have hlv : handleLeaveGroup groups ms conn gid =
        (.ok ((Group.cleanupUsers
            { group with subscribers := group.subscribers.erase conn }
            conn).2, [⟨gid, .destroyGroup⟩]),
          groups.removeKey gid, msRemove ms gid) := by
      rw [handleLeaveGroup]
      simp only [hg, hms]
      have hsub : (Group.cleanupUsers
          { group with subscribers := group.subscribers.erase conn }
          conn).1.subscribers = group.subscribers.erase conn := rfl
      simp only [hsub, hemp, if_true]
      rfl
    have hrk : groups.removeKey gid =
        ⟨groups.entries.set gid (.vacant groups.next), gid⟩ := by
      rw [Slab.removeKey, Slab.tryRemove]
      simp only [hes]
    simp only [hlv, hrk]
    refine ⟨by trivial, ?_⟩
    rw [Slab.isVacant]
    simp only [List.getElem?_set_eq_of_lt _ hlt]
  · intro groups ms conn name gid n hfind hnext hvac hms
    have hlt : gid < groups.entries.length := by
      by_contra hh
      rw [List.getElem?_eq_none (by omega)] at hvac
      exact Option.noConfusion hvac
    have hins : groups.insert
        { name := name, users := .empty, subscribers := [conn] } =
        (gid, ⟨groups.entries.set gid
          (.occupied ⟨name, .empty, [conn]⟩), n⟩) := by
      rw [Slab.insert, hnext]
      simp only [if_neg (show ¬ gid = groups.entries.length by omega),
        hvac]
    have hjg : handleJoinGroup groups ms conn name =
        (.ok ([.confirmGroup gid], [⟨gid, .initGroup name⟩]),
          ⟨groups.entries.set gid
            (.occupied ⟨name, .empty, [conn]⟩), n⟩,
          msInsert ms gid true) := by
      rw [handleJoinGroup]
      simp only [hfind, hins, hms]
      rfl
    simp only [hjg]
    refine ⟨by trivial, ?_⟩
    rw [Slab.get]
    simp only [List.getElem?_set_eq_of_lt _ hlt]

/-- Witness for C7 at the concrete trace of the counterexample: the
destroy leaves slot 0 at the head of the free list, and the re-join
allocates gid 0 again with a fresh empty group. -/
theorem claim_C7_witness :
    ((handleLeaveGroup ⟨[.occupied ⟨[108], Slab.empty, [5]⟩], 1⟩
        [(0, true)] 5 0).2.1.next = 0 ∧
      (handleLeaveGroup ⟨[.occupied ⟨[108], Slab.empty, [5]⟩], 1⟩
        [(0, true)] 5 0).2.1.isVacant 0 = true) ∧
    ((handleJoinGroup ⟨[.vacant 1], 0⟩ [] 6 [108]).1 =
        .ok ([.confirmGroup 0], [⟨0, .initGroup [108]⟩]) ∧
      (handleJoinGroup ⟨[.vacant 1], 0⟩ [] 6 [108]).2.1.get 0 =
        some ⟨[108], Slab.empty, [6]⟩) :=
  ⟨claim_C7.1 ⟨[.occupied ⟨[108], Slab.empty, [5]⟩], 1⟩ [(0, true)] 5 0
      ⟨[108], Slab.empty, [5]⟩ (by decide) (by decide) (by decide),
   claim_C7.2 ⟨[.vacant 1], 0⟩ [] 6 [108] 0 1 (by decide) (by decide)
      (by decide) (by decide)⟩

/-- Claim C8, counterexample. In a group whose only subscriber is the
sending connection itself (conn 7, owning user 0), `SendMessage` with
one blob broadcasts the `Message` update to conn 7 — and processing
that self-echoed update allocates an attachment slot: the sender's
attachment table grows from 0 to 1 entries, contradicting the claim
that the sending connection allocates no slots for its own message. -/
theorem claim_C8_counterexample :
    (handleSendMessage
        ⟨[.occupied ⟨[108], ⟨[.occupied ⟨[97], 7⟩], 1⟩, [7]⟩], 1⟩
        7 0 0 [104] [[222, 173]]).1 =
      .ok [(7, ⟨0, .message [104] [[222, 173]]⟩)] ∧
    (handleGroupMessage Slab.empty 0 0 [104] [[222, 173]]).1.size = 1 ∧
    ¬ (handleGroupMessage Slab.empty 0 0 [104] [[222, 173]]).1.size = 0
    := by
  refine ⟨?_, ?_, ?_⟩ <;> decide

/-- Claim C8, amended. A `SendMessage` with `N` blobs is fanned out to
*every* subscriber of the group with no self-exclusion — the sending
connection's own relay is a subscriber like any other — and every
connection that processes the resulting `Message` group update
allocates exactly one attachment-table slot per blob. -/
theorem claim_C8 :
    (∀ (groups : Slab Group) (conn gid uid : Nat) (text : List Nat)
      (blobs : List (List Nat)) (group : Group) (user : User),
      groups.get gid = some group →
      group.users.get uid = some user → user.owner = conn →
      (handleSendMessage groups conn gid uid text blobs).1 =
        .ok (group.subscribers.map
          (fun c => (c, ⟨uid, .message text blobs⟩)))) ∧
    (∀ (att : Slab (List Nat)) (gid uid : Nat) (text : List Nat)
      (blobs : List (List Nat)), att.wf = true →
      (handleGroupMessage att gid uid text blobs).1.size =
        att.size + blobs.length ∧
      (handleGroupMessage att gid uid text blobs).2 =
        .message gid uid text (allocAttachments att blobs).2 ∧
      (allocAttachments att blobs).2.length = blobs.length) := by
  constructor
  · intro groups conn gid uid text blobs group user hg hu ho
    rw [handleSendMessage]
    simp only [hg, hu, ho, bne_self_eq_false, if_false]
    rfl
  · intro att gid uid text blobs hwf
    have hsp := allocAttachments_spec blobs att hwf
    exact ⟨hsp.2.1, rfl, hsp.2.2.1⟩

/-- Witness for C8: the sender (conn 7) is the sole subscriber and its
processing of the echoed message allocates one slot for the one blob.
-/
theorem claim_C8_witness :
    (handleSendMessage
        ⟨[.occupied ⟨[108], ⟨[.occupied ⟨[97], 7⟩], 1⟩, [7]⟩], 1⟩
        7 0 0 [104] [[1, 2]]).1 =
      .ok ([7].map (fun c => (c, ⟨0, .message [104] [[1, 2]]⟩))) ∧
    (handleGroupMessage ⟨[], 0⟩ 0 0 [104] [[1, 2]]).1.size =
      (Slab.size (⟨[], 0⟩ : Slab (List Nat))) + 1 :=
  ⟨claim_C8.1 ⟨[.occupied ⟨[108], ⟨[.occupied ⟨[97], 7⟩], 1⟩, [7]⟩], 1⟩
      7 0 0 [104] [[1, 2]] ⟨[108], ⟨[.occupied ⟨[97], 7⟩], 1⟩, [7]⟩
      ⟨[97], 7⟩ (by decide) (by decide) (by decide),
   (claim_C8.2 ⟨[], 0⟩ 0 0 [104] [[1, 2]] (by decide)).1⟩

end Multichat
